import Mathlib

/-!
Shallow embedding of `tools/tensorflow_docs/api_generator/generate_lib.py`.

The file models the staged documentation publish pipeline of that module:
`write_docs` (staging of pages, redirects, TOC, usage report and global
index), `extract` (the single-root check in front of the traversal),
`DocGenerator.__init__` (configuration validation), `DocGenerator.build`
(extract, stage into an ephemeral workdir, promote into the destination)
and the helper `add_dict_to_dict`.

Conventions of the embedding:
* Python strings are `String`; the string helpers used by the source
  (`str.replace('.', '/')`, `str.startswith`, splitting on `/`) are
  re-implemented structurally on `List Char` so that the kernel can
  evaluate them.
* `pathlib.Path` is `FPath`: an absoluteness flag plus the list of path
  segments (pathlib drops empty segments, hence the filter in
  `splitSlash`).
* The filesystem is `FS`: an association list of written files plus the
  list of created directories. `Path.write_text` is `FS.writeFile`
  (overwrite), `mkdir` is `FS.mkdir`, `shutil.rmtree` is
  `FS.removeUnder`.
* External collaborators (the page renderer `docs_for_object`, the TOC
  builder, `traverse.traverse`, `public_api.get_module_base_dirs`) and
  the possibility of an OSError on a write are supplied through `DocEnv`.
* A Python exception is a `DocError` value; a fallible step returns
  `Option DocError × FS` so that the state of the filesystem at the
  moment an exception propagates stays observable.
* Python objects held in module/entity/list positions are opaque `Nat`
  handles; for `add_dict_to_dict` the mutable lists are a heap
  `PyHeap : Nat → List Nat` indexed by such handles, which makes Python's
  reference aliasing expressible.
* `code_url_prefix` from the source is spelled `code_url_prefixes` here.
-/

-- ## String helpers (structural re-implementations of the Python ops)

def splitOnChar (c : Char) : List Char → List (List Char)
  | [] => [[]]
  | ch :: rest =>
    let r := splitOnChar c rest
    if ch = c then [] :: r
    else
      match r with
      | [] => [[ch]]
      | h :: t => (ch :: h) :: t

/-- `full_name.split('.')` -/
def splitDots (s : String) : List String :=
  (splitOnChar '.' s.data).map (fun l => String.mk l)

/-- `s.replace('.', '/')` (single-character pattern, hence a char map). -/
def replaceDots (s : String) : String :=
  String.mk (s.data.map (fun ch => if ch = '.' then '/' else ch))

/-- Split on `/` and drop empty segments, as `pathlib` normalization does. -/
def splitSlash (s : String) : List String :=
  ((splitOnChar '/' s.data).map (fun l => String.mk l)).filter (fun x => x ≠ "")

def joinSlash (l : List String) : String :=
  String.mk (((l.map (fun s => s.data)).intersperse (['/'])).flatten)

def isPrefixOfB {α : Type} [DecidableEq α] : List α → List α → Bool
  | [], _ => true
  | _ :: _, [] => false
  | a :: as, b :: bs => if a = b then isPrefixOfB as bs else false

/-- `s.startswith(t)` -/
def startsWithB (s t : String) : Bool := isPrefixOfB t.data s.data

/-- Python string `<=` : lexicographic on code points. -/
def listLeB : List Char → List Char → Bool
  | [], _ => true
  | _ :: _, [] => false
  | a :: as, b :: bs => if a = b then listLeB as bs else decide (a < b)

def strLeB (a b : String) : Bool := listLeB a.data b.data

-- ## Paths (`pathlib.Path`)

structure FPath where
  absolute : Bool
  segs : List String
deriving DecidableEq

def FPath.join (p q : FPath) : FPath :=
  if q.absolute then q else FPath.mk p.absolute (p.segs ++ q.segs)

/-- `p / s` for a string `s` that may contain slashes. -/
def FPath.joinStr (p : FPath) (s : String) : FPath :=
  p.join (FPath.mk false (splitSlash s))

def FPath.parent (p : FPath) : FPath := FPath.mk p.absolute p.segs.dropLast

def FPath.toString (p : FPath) : String :=
  (if p.absolute then ("/") else ("")) ++ joinSlash p.segs

/-- `q` is `root` itself or lies below `root`. -/
def FPath.underEq (q root : FPath) : Bool :=
  (q.absolute == root.absolute) && isPrefixOfB root.segs q.segs

def FPath.relSegs (q root : FPath) : List String := q.segs.drop root.segs.length

-- ## Output artifacts

structure PageInfo where
  page_text : String
  metrics : Nat
deriving DecidableEq

structure Redirect where
  redirect_from : String
  redirect_to : String
deriving DecidableEq

/-- What a written file holds: page markdown, the serialized usage report,
the TOC manifest (the TOC builder is an external collaborator, its output
is an opaque `Nat`), the `_redirects.yaml` manifest, the global index
(`search_hints=False` prepends a noindex marker), or the api cache. -/
inductive Content where
  | page (text : String)
  | apiReport (metrics : List Nat)
  | tocFile (data : Nat)
  | redirectsYaml (entries : List Redirect)
  | globalIndex (title : String) (noindex : Bool)
  | apiCacheFile
deriving DecidableEq

-- ## Filesystem model

structure FS where
  files : List (FPath × Content)
  dirs : List FPath
deriving DecidableEq

/-- `path.write_text(...)`: overwrite the file at `p`. -/
def FS.writeFile (fs : FS) (p : FPath) (c : Content) : FS :=
  FS.mk (fs.files.filter (fun e => e.1 != p) ++ [(p, c)]) fs.dirs

/-- `p.mkdir(exist_ok=True)`. -/
def FS.mkdir (fs : FS) (p : FPath) : FS :=
  if p ∈ fs.dirs then fs else FS.mk fs.files (fs.dirs ++ [p])

/-- `shutil.rmtree(root)`. -/
def FS.removeUnder (fs : FS) (root : FPath) : FS :=
  FS.mk (fs.files.filter (fun e => !(FPath.underEq e.1 root)))
    (fs.dirs.filter (fun p => !(FPath.underEq p root)))

def FS.filesUnder (fs : FS) (root : FPath) : List (FPath × Content) :=
  fs.files.filter (fun e => FPath.underEq e.1 root)

def FS.isFileAt (fs : FS) (p : FPath) : Bool :=
  fs.files.any (fun e => e.1 == p)

def FS.isDirAt (fs : FS) (p : FPath) : Bool :=
  p ∈ fs.dirs || fs.files.any (fun e => e.1 != p && FPath.underEq e.1 p)

def FS.contentAt (fs : FS) (p : FPath) : Content :=
  match fs.files.find? (fun e => e.1 == p) with
  | some e => e.2
  | none => Content.page ""

/-- The part of the filesystem at or below `root` (content of a directory,
including its own existence as a dir entry). -/
def FS.restrictTo (fs : FS) (root : FPath) : FS :=
  FS.mk (fs.files.filter (fun e => FPath.underEq e.1 root))
    (fs.dirs.filter (fun p => FPath.underEq p root))

-- ## Data model of the extracted API

inductive OutputType where
  | PAGE
  | FRAGMENT
deriving DecidableEq

/-- A node of the `api_tree`: its canonical full name and its
page-vs-fragment classification. The underlying `py_object` is only ever
handed to external collaborators, so it is keyed by the full name. -/
structure ApiNode where
  full_name : String
  output_type : OutputType
deriving DecidableEq

/-- The accumulator (`DocGeneratorVisitor`) after `build()`: the parts of
its indices that `write_docs` consumes. -/
structure Accumulator where
  duplicates : List (String × List String)
  api_tree : List ApiNode
deriving DecidableEq

structure ParserConfig where
  duplicates : List (String × List String)
  api_tree : List ApiNode
  base_dir : List String
  code_url_prefixes : List (Option String)
deriving DecidableEq

-- ## Errors (the Python exception taxonomy of the module)

inductive DocError where
  /-- a `ValueError` from configuration validation -/
  | configError (msg : String)
  /-- the `IndexError` from `py_modules[0]` on an empty list -/
  | indexError
  /-- the `ValueError` wrapping a failed `docs_for_object` call -/
  | renderError (symbol : String)
  /-- an `OSError` from a filesystem write -/
  | ioError (path : FPath)
  /-- the `ValueError` raised when `num_docs_output <= 1` -/
  | emptyResult
deriving DecidableEq

-- ## External collaborators and IO nondeterminism

/-- The collaborators `generate_lib` imports, plus which writes fail.
`render` is `docs_for_object.docs_for_object` (`none` = it raised);
`io_fail` says whether writing a path raises `OSError`;
`toc_build` is the TOC builder applied to the `api_tree`;
`traverse` is `traverse.traverse` composed with the accumulator's
`build()` (an `Except` because traversal can raise, e.g. the depth
guard); `module_base_dirs` is `public_api.get_module_base_dirs`. -/
structure DocEnv where
  render : String → Option PageInfo
  io_fail : FPath → Bool
  toc_build : List ApiNode → Nat
  traverse : String → Nat → Except DocError Accumulator
  module_base_dirs : Nat → List String

/-- A write that can raise: on failure the filesystem is unchanged. -/
def fsWrite (env : DocEnv) (fs : FS) (p : FPath) (c : Content) : Option DocError × FS :=
  if env.io_fail p then (some (DocError.ioError p), fs) else (none, fs.writeFile p c)

-- ## write_docs

def alookup {β : Type} (k : String) : List (String × β) → Option β
  | [] => none
  | (k₂, v) :: rest => if k = k₂ then some v else alookup k rest

/-- Modelled from the spec: `parser.documentation_path` lives in
`api_generator/parser.py`, which is not part of this repository snapshot.
The spec says pages are written to "a path deterministically derived from
the canonical name (dotted/namespaced segments become nested path
segments)": split the full name on dots, the last segment carrying a
`.md` extension. -/
def documentation_path (full_name : String) : FPath :=
  let parts := splitDots full_name
  FPath.mk false (parts.dropLast ++ [(parts.getLastD "") ++ ".md"])

/-- The namespace prefixes excluded from the usage report
(`full_name.startswith(('tf.compat.v', 'tf.keras.backend', 'tf.numpy',
'tf.experimental.numpy'))`). -/
def report_excluded (full_name : String) : Bool :=
  startsWithB full_name ("tf.compat.v") || startsWithB full_name ("tf.keras.backend") ||
  startsWithB full_name ("tf.numpy") || startsWithB full_name ("tf.experimental.numpy")

/-- One redirect entry: `{'from': str(site_path / dup.replace('.', '/')),
'to': str(site_path / full_name.replace('.', '/'))}`. -/
def mkRedirect (site_path : FPath) (dup full_name : String) : Redirect :=
  Redirect.mk (FPath.toString (site_path.joinStr (replaceDots dup)))
    (FPath.toString (site_path.joinStr (replaceDots full_name)))

/-- The intermediate state of `write_docs`' page loop. -/
structure WDState where
  fs : FS
  redirects : List Redirect
  api_report : Option (List Nat)
  num_docs_output : Nat

/-- `if api_report is not None and not full_name.startswith(...):
api_report.fill_metrics(page_info)`. -/
def reportFold (st : WDState) (full_name : String) (m : Nat) : WDState :=
  if st.api_report.isSome && !(report_excluded full_name) then
    { st with api_report := st.api_report.map (fun ms => ms ++ [m]) }
  else st

/-- The body of `write_docs`' loop for one `api_tree` node. -/
def write_docs_node (env : DocEnv) (output_dir site_path : FPath)
    (duplicates : List (String × List String)) (gen_redirects : Bool)
    (st : WDState) (node : ApiNode) : Option DocError × WDState :=
  if node.output_type = OutputType.FRAGMENT then (none, st)
  else
    match env.render node.full_name with
    | none => (some (DocError.renderError node.full_name), st)
    | some page_info =>
      let st := reportFold st node.full_name page_info.metrics
      let path := output_dir.join (documentation_path node.full_name)
      let st := { st with fs := st.fs.mkdir path.parent }
      if env.io_fail path then (some (DocError.ioError path), st)
      else
        let st := { st with fs := st.fs.writeFile path (Content.page page_info.page_text),
                            num_docs_output := st.num_docs_output + 1 }
        let raw := (alookup node.full_name duplicates).getD []
        if raw.isEmpty then (none, st)
        else
          let dups := raw.filter (fun item => item ≠ node.full_name)
          if gen_redirects then
            (none, { st with redirects :=
              st.redirects ++ dups.map (fun dup => mkRedirect site_path dup node.full_name) })
          else (none, st)

def write_docs_loop (env : DocEnv) (output_dir site_path : FPath)
    (duplicates : List (String × List String)) (gen_redirects : Bool)
    (nodes : List ApiNode) (st : WDState) : Option DocError × WDState :=
  match nodes with
  | [] => (none, st)
  | n :: rest =>
    match write_docs_node env output_dir site_path duplicates gen_redirects st n with
    | (some e, st₂) => (some e, st₂)
    | (none, st₂) => write_docs_loop env output_dir site_path duplicates gen_redirects rest st₂

/-- Insert keeping entries with a `from` key `<=` the new one in front:
folding this over the list is the (stable) `sorted(redirects,
key=lambda redirect: redirect['from'])` of the source. -/
def insertSorted (e : Redirect) : List Redirect → List Redirect
  | [] => [e]
  | x :: xs =>
    if strLeB x.redirect_from e.redirect_from then x :: insertSorted e xs else e :: x :: xs

def sortRed (l : List Redirect) : List Redirect :=
  l.foldl (fun acc e => insertSorted e acc) []

def msg_output_dir_abs : String := "output_dir must be an absolute path."
def msg_base_dir_empty : String := "`base_dir` cannot be empty"
def msg_cup_empty : String := "`code_url_prefix` cannot be empty"
def msg_pairing : String :=
  "The `base_dir` list should have the same number of elements as the `code_url_prefix` list."
def msg_only_one : String := "only pass one (name, module) pair in py_modules"
def msg_empty_result : String := "The DocGenerator failed to generate any docs."

def sitePathOf (site_path : String) : FPath := FPath.mk true (splitSlash site_path)

def reportPath (output_dir : FPath) (root_module_name : String) : FPath :=
  (output_dir.joinStr root_module_name).joinStr ("api_report.pb")

def tocPath (output_dir : FPath) (root_module_name : String) : FPath :=
  (output_dir.joinStr root_module_name).joinStr ("_toc.yaml")

def redirectsPath (output_dir : FPath) (root_module_name : String) : FPath :=
  (output_dir.joinStr root_module_name).joinStr ("_redirects.yaml")

def allSymbolsPath (output_dir : FPath) (root_module_name : String) : FPath :=
  (output_dir.joinStr root_module_name).joinStr ("all_symbols.md")

/-- `write_docs` of `generate_lib.py`: validate `output_dir`, create it,
loop over the `api_tree` writing one page per PAGE node and collecting
redirects and report metrics, then write the report, check the
`num_docs_output <= 1` guard, and write the TOC manifest, the redirects
manifest and the global index. Returns the error that propagated (if
any) together with the filesystem at that moment. -/
def write_docs (env : DocEnv) (output_dir : FPath) (parser_config : ParserConfig)
    (yaml_toc : Bool) (root_module_name root_title : String)
    (search_hints : Bool) (site_path : String)
    (gen_redirects gen_report : Bool) (fs : FS) : Option DocError × FS :=
  let site_path₂ := sitePathOf site_path
  if !output_dir.absolute then (some (DocError.configError msg_output_dir_abs), fs)
  else
    let fs := fs.mkdir output_dir
    let st₀ : WDState :=
      WDState.mk fs [] (if gen_report then some [] else none) 0
    match write_docs_loop env output_dir site_path₂ parser_config.duplicates gen_redirects
        parser_config.api_tree st₀ with
    | (some e, st) => (some e, st.fs)
    | (none, st) =>
      let afterReport : Option DocError × FS :=
        match st.api_report with
        | some ms => fsWrite env st.fs (reportPath output_dir root_module_name) (Content.apiReport ms)
        | none => (none, st.fs)
      match afterReport with
      | (some e, fs₁) => (some e, fs₁)
      | (none, fs₁) =>
        if st.num_docs_output ≤ 1 then (some DocError.emptyResult, fs₁)
        else
          let afterToc : Option DocError × FS :=
            if yaml_toc then
              fsWrite env fs₁ (tocPath output_dir root_module_name)
                (Content.tocFile (env.toc_build parser_config.api_tree))
            else (none, fs₁)
          match afterToc with
          | (some e, fs₂) => (some e, fs₂)
          | (none, fs₂) =>
            let afterRed : Option DocError × FS :=
              if !st.redirects.isEmpty && gen_redirects then
                fsWrite env fs₂ (redirectsPath output_dir root_module_name)
                  (Content.redirectsYaml (sortRed st.redirects))
              else (none, fs₂)
            match afterRed with
            | (some e, fs₃) => (some e, fs₃)
            | (none, fs₃) =>
              fsWrite env fs₃ (allSymbolsPath output_dir root_module_name)
                (Content.globalIndex root_title (!search_hints))

-- ## extract (the single-root check), __init__ validation, build

/-- `extract` of `generate_lib.py`: check the `len(py_modules) != 1`
invariant, then run the traversal (the filter chain and the accumulator
are inside the `traverse` collaborator). -/
def extract (env : DocEnv) (py_modules : List (String × Nat)) : Except DocError Accumulator :=
  match py_modules with
  | [(short_name, py_module)] => env.traverse short_name py_module
  | _ => Except.error (DocError.configError msg_only_one)

/-- The argument space of `base_dir`: `None`, one string/`Path`, or a
sequence. -/
inductive BaseDirArg where
  | noneArg
  | strArg (s : String)
  | listArg (l : List String)
deriving DecidableEq

/-- The argument space of `code_url_prefix`:
`Union[Optional[str], Sequence[Optional[str]]]`. -/
inductive UrlArg where
  | strOrNone (s : Option String)
  | seqArg (l : List (Option String))
deriving DecidableEq

def resolve_base_dir (env : DocEnv) (py_module : Nat) : BaseDirArg → List String
  | BaseDirArg.noneArg => env.module_base_dirs py_module
  | BaseDirArg.strArg s => [s]
  | BaseDirArg.listArg l => l

def resolve_code_urls : UrlArg → List (Option String)
  | UrlArg.strOrNone s => [s]
  | UrlArg.seqArg l => l

/-- The validated state of a `DocGenerator`. -/
structure DocGeneratorCfg where
  root_title : String
  py_modules : List (String × Nat)
  short_name : String
  py_module : Nat
  base_dir : List String
  code_url_prefixes : List (Option String)
  search_hints : Bool
  site_path : String
  api_cache : Bool
  yaml_toc : Bool
  gen_redirects : Bool
  gen_report : Bool
deriving DecidableEq

/-- `DocGenerator.__init__`: `py_modules[0]` (an `IndexError` on an empty
list), resolution and wrapping of `base_dir` and `code_url_prefix`, and
the three `ValueError` validations, in source order. -/
def DocGenerator_init (env : DocEnv) (root_title : String)
    (py_modules : List (String × Nat)) (base_dir : BaseDirArg) (cup : UrlArg)
    (search_hints : Bool) (site_path : String)
    (api_cache yaml_toc gen_redirects gen_report : Bool) :
    Except DocError DocGeneratorCfg :=
  match py_modules with
  | [] => Except.error DocError.indexError
  | (short_name, py_module) :: _ =>
    let bd := resolve_base_dir env py_module base_dir
    if bd.isEmpty then Except.error (DocError.configError msg_base_dir_empty)
    else
      let cu := resolve_code_urls cup
      if cu.isEmpty then Except.error (DocError.configError msg_cup_empty)
      else if cu.length ≠ bd.length then Except.error (DocError.configError msg_pairing)
      else
        Except.ok (DocGeneratorCfg.mk root_title py_modules short_name py_module bd cu
          search_hints site_path api_cache yaml_toc gen_redirects gen_report)

def make_parser_config (cfg : DocGeneratorCfg) (v : Accumulator) : ParserConfig :=
  ParserConfig.mk v.duplicates v.api_tree cfg.base_dir cfg.code_url_prefixes

def run_extraction (env : DocEnv) (cfg : DocGeneratorCfg) : Except DocError ParserConfig :=
  (extract env cfg.py_modules).map (make_parser_config cfg)

-- ## Promotion (`DocGenerator.build`'s copy loop)

def dedupFirstAux (seen : List String) : List String → List String
  | [] => []
  | s :: rest =>
    if seen.contains s then dedupFirstAux seen rest
    else s :: dedupFirstAux (seen ++ [s]) rest

def dedupFirst (l : List String) : List String := dedupFirstAux [] l

/-- `work_py_dir.glob('*')`: the distinct first segments below `root`. -/
def topNames (fs : FS) (root : FPath) : List String :=
  dedupFirst ((fs.files.map Prod.fst ++ fs.dirs).filterMap (fun p =>
    if FPath.underEq p root then (FPath.relSegs p root).head? else none))

/-- One iteration of the promotion loop: a plain file is copied over, a
directory replaces (`rmtree` + `copytree`) the destination directory of
the same name. -/
def promoteEntry (work_root out_root : FPath) (staged : FS) (fs : FS) (name : String) : FS :=
  let wp := work_root.join (FPath.mk false [name])
  let op := out_root.join (FPath.mk false [name])
  let fs := fs.mkdir op.parent
  if staged.isFileAt wp then fs.writeFile op (staged.contentAt wp)
  else if staged.isDirAt wp then
    let fs := (staged.filesUnder wp).foldl
      (fun acc e => acc.writeFile (out_root.join (FPath.mk false (FPath.relSegs e.1 work_root))) e.2)
      ((fs.removeUnder op).mkdir op)
    (staged.dirs.filter (fun p => FPath.underEq p wp)).foldl
      (fun acc p => acc.mkdir (out_root.join (FPath.mk false (FPath.relSegs p work_root)))) fs
  else fs

def promote (staged : FS) (work_root out_root : FPath) : FS :=
  (topNames staged work_root).foldl (promoteEntry work_root out_root staged) staged

/-- `DocGenerator.build`: make a temp workdir (passed in as the fresh
path `workdir`, as `tempfile.mkdtemp` returns one), extract, stage via
`write_docs` into `workdir / 'api_docs/python'`, write the api cache
there, then `os.makedirs(output_dir)` and promote the staged top-level
entries into `output_dir`. -/
def build (env : DocEnv) (cfg : DocGeneratorCfg) (workdir output_dir : FPath)
    (fs : FS) : Option DocError × FS :=
  let work_py_dir := workdir.joinStr ("api_docs/python")
  match run_extraction env cfg with
  | Except.error e => (some e, fs)
  | Except.ok parser_config =>
    match write_docs env work_py_dir parser_config cfg.yaml_toc
        (replaceDots cfg.short_name) cfg.root_title cfg.search_hints cfg.site_path
        cfg.gen_redirects cfg.gen_report fs with
    | (some e, fs₁) => (some e, fs₁)
    | (none, fs₁) =>
      let afterCache : Option DocError × FS :=
        if cfg.api_cache then
          fsWrite env fs₁
            ((work_py_dir.joinStr (replaceDots cfg.short_name)).joinStr ("_api_cache.json"))
            Content.apiCacheFile
        else (none, fs₁)
      match afterCache with
      | (some e, fs₂) => (some e, fs₂)
      | (none, fs₂) =>
        let fs₃ := fs₂.mkdir output_dir
        (none, promote fs₃ work_py_dir output_dir)

-- ## add_dict_to_dict (heap model, to express Python list aliasing)

structure PyDict where
  entries : List (String × Nat)
deriving DecidableEq

def PyDict.lookup (d : PyDict) (k : String) : Option Nat := alookup k d.entries

def PyDict.insertNew (d : PyDict) (k : String) (r : Nat) : PyDict :=
  PyDict.mk (d.entries ++ [(k, r)])

/-- The heap of Python list objects, indexed by object identity. -/
abbrev PyHeap := Nat → List Nat

def heapWrite (h : PyHeap) (r : Nat) (v : List Nat) : PyHeap :=
  fun r₂ => if r₂ = r then v else h r₂

/-- `for key in add_from: if key in add_to: add_to[key].extend(add_from[key])
else: add_to[key] = add_from[key]` — the mutated dict with the heap. -/
def add_dict_to_dict_go (h : PyHeap) (add_to : PyDict) :
    List (String × Nat) → PyDict × PyHeap
  | [] => (add_to, h)
  | (key, r) :: rest =>
    match add_to.lookup key with
    | some r₂ => add_dict_to_dict_go (heapWrite h r₂ (h r₂ ++ h r)) add_to rest
    | none => add_dict_to_dict_go h (add_to.insertNew key r) rest

def add_dict_to_dict (add_from add_to : PyDict) (h : PyHeap) : PyDict × PyHeap :=
  add_dict_to_dict_go h add_to add_from.entries

-- ## Derived descriptions used by the theorems

/-- The number of PAGE nodes of a tree. -/
def countPages : List ApiNode → Nat
  | [] => 0
  | n :: rest => (if n.output_type = OutputType.PAGE then 1 else 0) + countPages rest

/-- The aliases of `full_name` that get redirect entries: the
`duplicates` value with `full_name` itself filtered out. -/
def dupsOf (duplicates : List (String × List String)) (full_name : String) : List String :=
  ((alookup full_name duplicates).getD []).filter (fun item => item ≠ full_name)

/-- The redirect entries one PAGE node contributes. -/
def nodeEntries (site_path : FPath) (duplicates : List (String × List String))
    (n : ApiNode) : List Redirect :=
  (dupsOf duplicates n.full_name).map (fun dup => mkRedirect site_path dup n.full_name)

def nodeEntriesPage (site_path : FPath) (duplicates : List (String × List String))
    (n : ApiNode) : List Redirect :=
  if n.output_type = OutputType.PAGE then nodeEntries site_path duplicates n else []

/-- All redirect entries of a tree, in loop order. -/
def allEntries (site_path : FPath) (duplicates : List (String × List String)) :
    List ApiNode → List Redirect
  | [] => []
  | n :: rest => nodeEntriesPage site_path duplicates n ++ allEntries site_path duplicates rest

/-- The metric `docs_for_object` returns for a node. -/
def metricOf (env : DocEnv) (n : ApiNode) : Nat :=
  match env.render n.full_name with
  | some page_info => page_info.metrics
  | none => 0

/-- The usage-report metrics one node contributes. -/
def nodeMetrics (env : DocEnv) (n : ApiNode) : List Nat :=
  if n.output_type = OutputType.PAGE && !(report_excluded n.full_name) then [metricOf env n]
  else []

/-- All usage-report metrics of a tree, in loop order. -/
def pageMetrics (env : DocEnv) : List ApiNode → List Nat
  | [] => []
  | n :: rest => nodeMetrics env n ++ pageMetrics env rest

/-- Adjacent sortedness by the `from` field. -/
def sortedAdjB : List Redirect → Bool
  | [] => true
  | [_] => true
  | a :: b :: t => strLeB a.redirect_from b.redirect_from && sortedAdjB (b :: t)

/-- `fs₂` differs from `fs` only at or below `root`: the files and dirs
outside `root` are exactly the old ones, and anything new is below
`root`. -/
def ChangesWithin (fs fs₂ : FS) (root : FPath) : Prop :=
  fs₂.files.filter (fun e => !(FPath.underEq e.1 root))
    = fs.files.filter (fun e => !(FPath.underEq e.1 root))
  ∧ fs₂.dirs.filter (fun p => !(FPath.underEq p root))
    = fs.dirs.filter (fun p => !(FPath.underEq p root))
  ∧ (∀ p c, (p, c) ∈ fs₂.files → (p, c) ∈ fs.files ∨ FPath.underEq p root = true)
  ∧ (∀ p, p ∈ fs₂.dirs → p ∈ fs.dirs ∨ FPath.underEq p root = true)

/-- The PAGE nodes of a tree carrying a given canonical name. -/
def pagesNamed (tree : List ApiNode) (c : String) : List ApiNode :=
  tree.filter (fun n => n.output_type == OutputType.PAGE && n.full_name == c)

-- ## The filesystem after the post-loop writes (used to state the
-- success-path decomposition of write_docs)

def wdReportFS (od : FPath) (rmn : String) (st : WDState) : FS :=
  match st.api_report with
  | some ms => st.fs.writeFile (reportPath od rmn) (Content.apiReport ms)
  | none => st.fs

def wdTocFS (env : DocEnv) (od : FPath) (rmn : String) (yt : Bool)
    (tree : List ApiNode) (fs₁ : FS) : FS :=
  if yt then fs₁.writeFile (tocPath od rmn) (Content.tocFile (env.toc_build tree)) else fs₁

def wdRedFS (od : FPath) (rmn : String) (gr : Bool) (redirects : List Redirect)
    (fs₂ : FS) : FS :=
  if !redirects.isEmpty && gr then
    fs₂.writeFile (redirectsPath od rmn) (Content.redirectsYaml (sortRed redirects))
  else fs₂

def wdFinalFS (env : DocEnv) (od : FPath) (rmn rt : String) (sh yt gr : Bool)
    (tree : List ApiNode) (st : WDState) : FS :=
  (wdRedFS od rmn gr st.redirects (wdTocFS env od rmn yt tree (wdReportFS od rmn st))).writeFile
    (allSymbolsPath od rmn) (Content.globalIndex rt (!sh))

-- ## List and path lemmas

theorem filter_imp_eq {α : Type} (p q : α → Bool) (l : List α)
    (h : ∀ a, p a = true → q a = true) : (l.filter q).filter p = l.filter p := by
  induction l with
  | nil => rfl
  | cons a t ih =>
    cases hq : q a with
    | true => simp [List.filter_cons, hq, ih]
    | false =>
      have hp : p a = false := by
        cases hpa : p a
        · rfl
        · rw [h a hpa] at hq; exact absurd hq (by simp)
      simp [List.filter_cons, hq, hp, ih]

theorem isPrefixOfB_refl {α : Type} [DecidableEq α] (l : List α) :
    isPrefixOfB l l = true := by
  induction l with
  | nil => rfl
  | cons a t ih => simp [isPrefixOfB, ih]

theorem isPrefixOfB_append {α : Type} [DecidableEq α] (l t : List α) :
    isPrefixOfB l (l ++ t) = true := by
  induction l with
  | nil => rfl
  | cons a r ih => simp [isPrefixOfB, ih]

theorem isPrefixOfB_trans {α : Type} [DecidableEq α] :
    ∀ (a b c : List α), isPrefixOfB a b = true → isPrefixOfB b c = true →
      isPrefixOfB a c = true
  | [], _, _, _, _ => rfl
  | x :: xs, [], _, h, _ => by simp [isPrefixOfB] at h
  | x :: xs, y :: ys, [], _, h => by simp [isPrefixOfB] at h
  | x :: xs, y :: ys, z :: zs, h₁, h₂ => by
    simp only [isPrefixOfB] at h₁ h₂ ⊢
    have hxy : x = y := by
      by_cases he : x = y
      · exact he
      · simp [he] at h₁
    have hyz : y = z := by
      by_cases he : y = z
      · exact he
      · simp [he] at h₂
    subst hxy; subst hyz
    simp only [if_pos rfl] at h₁ h₂ ⊢
    exact isPrefixOfB_trans xs ys zs h₁ h₂

theorem isPrefixOfB_comparable {α : Type} [DecidableEq α] :
    ∀ (u v w : List α), isPrefixOfB u w = true → isPrefixOfB v w = true →
      isPrefixOfB u v = true ∨ isPrefixOfB v u = true
  | [], _, _, _, _ => Or.inl rfl
  | _ :: _, [], _, _, _ => Or.inr rfl
  | x :: xs, y :: ys, [], h, _ => by simp [isPrefixOfB] at h
  | x :: xs, y :: ys, z :: zs, h₁, h₂ => by
    simp only [isPrefixOfB] at h₁ h₂ ⊢
    have hxz : x = z := by
      by_cases he : x = z
      · exact he
      · simp [he] at h₁
    have hyz : y = z := by
      by_cases he : y = z
      · exact he
      · simp [he] at h₂
    subst hxz; subst hyz
    simp only [if_pos rfl] at h₁ h₂ ⊢
    exact isPrefixOfB_comparable xs ys zs h₁ h₂

theorem underEq_refl (p : FPath) : p.underEq p = true := by
  simp [FPath.underEq, isPrefixOfB_refl]

theorem underEq_trans {q r s : FPath} (h₁ : q.underEq r = true)
    (h₂ : r.underEq s = true) : q.underEq s = true := by
  simp only [FPath.underEq, Bool.and_eq_true, beq_iff_eq] at h₁ h₂ ⊢
  exact ⟨h₁.1.trans h₂.1, isPrefixOfB_trans _ _ _ h₂.2 h₁.2⟩

theorem join_underEq (p : FPath) (l : List String) :
    (p.join (FPath.mk false l)).underEq p = true := by
  simp [FPath.join, FPath.underEq, isPrefixOfB_append]

theorem joinStr_underEq (p : FPath) (s : String) : (p.joinStr s).underEq p = true := by
  simp [FPath.joinStr, join_underEq]

theorem parent_join_underEq (p : FPath) (l : List String) (h : l ≠ []) :
    (p.join (FPath.mk false l)).parent.underEq p = true := by
  simp only [FPath.join, FPath.parent, FPath.underEq, Bool.false_eq_true, if_false]
  rw [List.dropLast_append_of_ne_nil _ h]
  simp [isPrefixOfB_append]

theorem underEq_comparable {p a b : FPath} (h₁ : p.underEq a = true)
    (h₂ : p.underEq b = true) : a.underEq b = true ∨ b.underEq a = true := by
  simp only [FPath.underEq, Bool.and_eq_true, beq_iff_eq] at h₁ h₂
  rcases isPrefixOfB_comparable a.segs b.segs p.segs h₁.2 h₂.2 with h | h
  · right
    simp only [FPath.underEq, Bool.and_eq_true, beq_iff_eq]
    exact ⟨h₂.1.symm.trans h₁.1, h⟩
  · left
    simp only [FPath.underEq, Bool.and_eq_true, beq_iff_eq]
    exact ⟨h₁.1.symm.trans h₂.1, h⟩

-- ## ChangesWithin lemmas

theorem cw_refl (fs : FS) (root : FPath) : ChangesWithin fs fs root :=
  ⟨rfl, rfl, fun _ _ h => Or.inl h, fun _ h => Or.inl h⟩

theorem cw_trans {fs₁ fs₂ fs₃ : FS} {root : FPath} (h₁ : ChangesWithin fs₁ fs₂ root)
    (h₂ : ChangesWithin fs₂ fs₃ root) : ChangesWithin fs₁ fs₃ root := by
  obtain ⟨a₁, b₁, c₁, d₁⟩ := h₁
  obtain ⟨a₂, b₂, c₂, d₂⟩ := h₂
  refine ⟨a₂.trans a₁, b₂.trans b₁, ?_, ?_⟩
  · intro p c h
    rcases c₂ p c h with h | h
    · exact c₁ p c h
    · exact Or.inr h
  · intro p h
    rcases d₂ p h with h | h
    · exact d₁ p h
    · exact Or.inr h

theorem cw_writeFile {fs : FS} {root p : FPath} (c : Content)
    (h : p.underEq root = true) : ChangesWithin fs (fs.writeFile p c) root := by
  refine ⟨?_, rfl, ?_, fun _ h => Or.inl h⟩
  · show ((fs.files.filter (fun e => e.1 != p)) ++ [(p, c)]).filter
        (fun e => !(FPath.underEq e.1 root)) = _
    rw [List.filter_append]
    have h₂ : ([(p, c)].filter (fun e => !(FPath.underEq e.1 root))) = [] := by
      simp [List.filter, h]
    rw [h₂, List.append_nil]
    exact filter_imp_eq _ _ fs.files (fun e he => by
      simp only [Bool.not_eq_true'] at he
      simp only [bne_iff_ne, ne_eq]
      intro hep
      rw [hep] at he
      rw [he] at h
      exact Bool.false_ne_true h)
  · intro q cq hq
    simp only [FS.writeFile, List.mem_append, List.mem_filter] at hq
    rcases hq with ⟨hm, _⟩ | hm
    · exact Or.inl hm
    · simp only [List.mem_singleton, Prod.mk.injEq] at hm
      right
      rw [hm.1]
      exact h

theorem cw_mkdir {fs : FS} {root p : FPath} (h : p.underEq root = true) :
    ChangesWithin fs (fs.mkdir p) root := by
  unfold FS.mkdir
  by_cases hmem : p ∈ fs.dirs
  · simp only [if_pos hmem]
    exact cw_refl fs root
  · simp only [if_neg hmem]
    refine ⟨rfl, ?_, fun _ _ h => Or.inl h, ?_⟩
    · rw [List.filter_append]
      have h₂ : ([p].filter (fun q => !(FPath.underEq q root))) = [] := by
        simp [List.filter, h]
      rw [h₂, List.append_nil]
    · intro q hq
      simp only [List.mem_append, List.mem_singleton] at hq
      rcases hq with hm | hm
      · exact Or.inl hm
      · right; rw [hm]; exact h

theorem cw_widen {fs fs₂ : FS} {root root₂ : FPath} (h : root.underEq root₂ = true)
    (hc : ChangesWithin fs fs₂ root) : ChangesWithin fs fs₂ root₂ := by
  obtain ⟨a, b, c, d⟩ := hc
  have himp : ∀ q : FPath, (!(FPath.underEq q root₂)) = true → (!(FPath.underEq q root)) = true := by
    intro q hq
    simp only [Bool.not_eq_true'] at hq ⊢
    cases hqr : FPath.underEq q root
    · rfl
    · rw [underEq_trans hqr h] at hq; exact absurd hq (by simp)
  refine ⟨?_, ?_, ?_, ?_⟩
  · calc fs₂.files.filter (fun e => !(FPath.underEq e.1 root₂))
        = (fs₂.files.filter (fun e => !(FPath.underEq e.1 root))).filter
            (fun e => !(FPath.underEq e.1 root₂)) :=
          (filter_imp_eq _ _ fs₂.files (fun e he => himp e.1 he)).symm
      _ = (fs.files.filter (fun e => !(FPath.underEq e.1 root))).filter
            (fun e => !(FPath.underEq e.1 root₂)) := by rw [a]
      _ = fs.files.filter (fun e => !(FPath.underEq e.1 root₂)) :=
          filter_imp_eq _ _ fs.files (fun e he => himp e.1 he)
  · calc fs₂.dirs.filter (fun p => !(FPath.underEq p root₂))
        = (fs₂.dirs.filter (fun p => !(FPath.underEq p root))).filter
            (fun p => !(FPath.underEq p root₂)) :=
          (filter_imp_eq _ _ fs₂.dirs himp).symm
      _ = (fs.dirs.filter (fun p => !(FPath.underEq p root))).filter
            (fun p => !(FPath.underEq p root₂)) := by rw [b]
      _ = fs.dirs.filter (fun p => !(FPath.underEq p root₂)) :=
          filter_imp_eq _ _ fs.dirs himp
  · intro p cp hp
    rcases c p cp hp with hm | hm
    · exact Or.inl hm
    · exact Or.inr (underEq_trans hm h)
  · intro p hp
    rcases d p hp with hm | hm
    · exact Or.inl hm
    · exact Or.inr (underEq_trans hm h)

theorem cw_fsWrite {env : DocEnv} {fs : FS} {root p : FPath} (c : Content)
    (h : p.underEq root = true) : ChangesWithin fs (fsWrite env fs p c).2 root := by
  unfold fsWrite
  by_cases hio : env.io_fail p
  · simp only [if_pos hio]; exact cw_refl fs root
  · simp only [if_neg hio]; exact cw_writeFile c h

-- ## Small FS lemmas

theorem mkdir_files (fs : FS) (p : FPath) : (fs.mkdir p).files = fs.files := by
  unfold FS.mkdir
  split <;> rfl

theorem mem_writeFile_self (fs : FS) (q : FPath) (c : Content) :
    (q, c) ∈ (fs.writeFile q c).files := by
  simp [FS.writeFile]

theorem mem_writeFile_of_ne {fs : FS} {q p : FPath} {c c₂ : Content} (h : p ≠ q)
    (hm : (p, c) ∈ fs.files) : (p, c) ∈ (fs.writeFile q c₂).files := by
  simp only [FS.writeFile, List.mem_append, List.mem_filter]
  left
  exact ⟨hm, by simp [h]⟩

theorem mem_writeFile_inv {fs : FS} {q p : FPath} {c c₂ : Content}
    (hm : (p, c) ∈ (fs.writeFile q c₂).files) :
    (p, c) ∈ fs.files ∨ (p = q ∧ c = c₂) := by
  simp only [FS.writeFile, List.mem_append, List.mem_filter, List.mem_singleton,
    Prod.mk.injEq] at hm
  rcases hm with ⟨hm, _⟩ | hm
  · exact Or.inl hm
  · exact Or.inr hm

theorem mem_fsWrite_of_ne {env : DocEnv} {fs : FS} {q p : FPath} {c c₂ : Content}
    (h : p ≠ q) (hm : (p, c) ∈ fs.files) : (p, c) ∈ (fsWrite env fs q c₂).2.files := by
  unfold fsWrite
  split
  · exact hm
  · exact mem_writeFile_of_ne h hm

theorem mem_fsWrite_inv {env : DocEnv} {fs : FS} {q p : FPath} {c c₂ : Content}
    (hm : (p, c) ∈ (fsWrite env fs q c₂).2.files) :
    (p, c) ∈ fs.files ∨ (p = q ∧ c = c₂) := by
  unfold fsWrite at hm
  split at hm
  · exact Or.inl hm
  · exact mem_writeFile_inv hm

-- ## reportFold component lemmas

theorem reportFold_fs (st : WDState) (f : String) (m : Nat) :
    (reportFold st f m).fs = st.fs := by
  unfold reportFold
  split <;> rfl

theorem reportFold_redirects (st : WDState) (f : String) (m : Nat) :
    (reportFold st f m).redirects = st.redirects := by
  unfold reportFold
  split <;> rfl

theorem reportFold_num (st : WDState) (f : String) (m : Nat) :
    (reportFold st f m).num_docs_output = st.num_docs_output := by
  unfold reportFold
  split <;> rfl

theorem reportFold_report (st : WDState) (f : String) (m : Nat) :
    (reportFold st f m).api_report
      = st.api_report.map (fun ms => ms ++ (if report_excluded f then [] else [m])) := by
  unfold reportFold
  cases harep : st.api_report with
  | none => simp [harep]
  | some ms => cases hexcl : report_excluded f <;> simp [harep, hexcl]

-- ## The page loop under no failures

theorem write_docs_node_ok (env : DocEnv) (od sp : FPath)
    (dups : List (String × List String)) (gr : Bool) (st : WDState) (n : ApiNode)
    (hio : ∀ p, env.io_fail p = false)
    (hr : n.output_type = OutputType.PAGE → (env.render n.full_name).isSome = true) :
    (write_docs_node env od sp dups gr st n).1 = none
    ∧ (write_docs_node env od sp dups gr st n).2.num_docs_output
        = st.num_docs_output + (if n.output_type = OutputType.PAGE then 1 else 0)
    ∧ (write_docs_node env od sp dups gr st n).2.redirects
        = st.redirects ++ (if gr then nodeEntriesPage sp dups n else [])
    ∧ (write_docs_node env od sp dups gr st n).2.api_report
        = st.api_report.map (fun ms => ms ++ nodeMetrics env n)
    ∧ (∀ p c, (p, c) ∈ (write_docs_node env od sp dups gr st n).2.fs.files →
        (p, c) ∈ st.fs.files ∨ ∃ t, c = Content.page t) := by
  cases hty : n.output_type with
  | FRAGMENT =>
    simp only [write_docs_node, hty, if_pos rfl]
    refine ⟨rfl, by simp, ?_, ?_, fun p c h => Or.inl h⟩
    · simp [nodeEntriesPage, hty]
    · cases harep : st.api_report <;> simp [harep, nodeMetrics, hty]
  | PAGE =>
    obtain ⟨pi, hpi⟩ := Option.isSome_iff_exists.mp (hr hty)
    have hfr : (n.output_type = OutputType.FRAGMENT) = False := by
      simp [hty]
    have hnm : nodeMetrics env n = if report_excluded n.full_name then [] else [pi.metrics] := by
      simp only [nodeMetrics, hty, metricOf, hpi]
      cases report_excluded n.full_name <;> simp
    have hmem : ∀ p c, (p, c) ∈ (((reportFold st n.full_name pi.metrics).fs.mkdir
          (od.join (documentation_path n.full_name)).parent).writeFile
          (od.join (documentation_path n.full_name))
          (Content.page pi.page_text)).files →
        (p, c) ∈ st.fs.files ∨ ∃ t, c = Content.page t := by
      intro p c h
      rcases mem_writeFile_inv h with hm | hm
      · rw [mkdir_files, reportFold_fs] at hm
        exact Or.inl hm
      · exact Or.inr ⟨pi.page_text, hm.2⟩
    simp only [write_docs_node, hfr, if_false, hpi, hio, Bool.false_eq_true]
    cases hraw : (alookup n.full_name dups).getD [] with
    | nil =>
      have hdup : dupsOf dups n.full_name = [] := by
        simp [dupsOf, hraw]
      simp only [hraw, List.isEmpty_nil, if_pos rfl]
      refine ⟨by trivial, ?_, ?_, ?_, hmem⟩
      · simp [reportFold_num, hty]
      · simp [reportFold_redirects, nodeEntriesPage, hty, nodeEntries, hdup]
      · simp [reportFold_report, hnm]
    | cons d ds =>
      have hdup : nodeEntriesPage sp dups n
          = ((d :: ds).filter (fun item => item ≠ n.full_name)).map
              (fun dup => mkRedirect sp dup n.full_name) := by
        simp [nodeEntriesPage, hty, nodeEntries, dupsOf, hraw]
      simp only [hraw, List.isEmpty_cons, if_false, Bool.false_eq_true]
      cases gr with
      | true =>
        simp only [if_pos rfl]
        refine ⟨by trivial, ?_, ?_, ?_, hmem⟩
        · simp [reportFold_num, hty]
        · simp [reportFold_redirects, hdup]
        · simp [reportFold_report, hnm]
      | false =>
        simp only [Bool.false_eq_true, if_false]
        refine ⟨by trivial, ?_, ?_, ?_, hmem⟩
        · simp [reportFold_num, hty]
        · simp [reportFold_redirects]
        · simp [reportFold_report, hnm]

theorem write_docs_loop_ok (env : DocEnv) (od sp : FPath)
    (dups : List (String × List String)) (gr : Bool) :
    ∀ (nodes : List ApiNode) (st : WDState),
    (∀ p, env.io_fail p = false) →
    (∀ n ∈ nodes, n.output_type = OutputType.PAGE → (env.render n.full_name).isSome = true) →
    (write_docs_loop env od sp dups gr nodes st).1 = none
    ∧ (write_docs_loop env od sp dups gr nodes st).2.num_docs_output
        = st.num_docs_output + countPages nodes
    ∧ (write_docs_loop env od sp dups gr nodes st).2.redirects
        = st.redirects ++ (if gr then allEntries sp dups nodes else [])
    ∧ (write_docs_loop env od sp dups gr nodes st).2.api_report
        = st.api_report.map (fun ms => ms ++ pageMetrics env nodes)
    ∧ (∀ p c, (p, c) ∈ (write_docs_loop env od sp dups gr nodes st).2.fs.files →
        (p, c) ∈ st.fs.files ∨ ∃ t, c = Content.page t) := by
  intro nodes
  induction nodes with
  | nil =>
    intro st hio hr
    refine ⟨rfl, by simp [write_docs_loop, countPages], ?_, ?_, fun p c h => Or.inl h⟩
    · cases gr <;> simp [write_docs_loop, allEntries]
    · cases harep : st.api_report <;> simp [write_docs_loop, pageMetrics, harep]
  | cons n rest ih =>
    intro st hio hr
    obtain ⟨h1, h2, h3, h4, h5⟩ :=
      write_docs_node_ok env od sp dups gr st n hio (hr n (List.mem_cons_self n rest))
    have hpair : write_docs_node env od sp dups gr st n
        = (none, (write_docs_node env od sp dups gr st n).2) :=
      Prod.ext_iff.mpr ⟨h1, rfl⟩
    have hstep : write_docs_loop env od sp dups gr (n :: rest) st
        = write_docs_loop env od sp dups gr rest (write_docs_node env od sp dups gr st n).2 := by
      conv_lhs => rw [write_docs_loop, hpair]
    obtain ⟨g1, g2, g3, g4, g5⟩ :=
      ih (write_docs_node env od sp dups gr st n).2 hio
        (fun m hm => hr m (List.mem_cons_of_mem n hm))
    rw [hstep]
    refine ⟨g1, ?_, ?_, ?_, ?_⟩
    · rw [g2, h2, countPages]
      omega
    · rw [g3, h3]
      cases gr <;> simp [allEntries]
    · rw [g4, h4]
      cases harep : st.api_report <;> simp [pageMetrics, harep]
    · intro p c h
      rcases g5 p c h with hm | hm
      · exact h5 p c hm
      · exact Or.inr hm

-- ## Everything write_docs touches is under its output_dir

theorem documentation_path_segs_ne_nil (f : String) :
    (documentation_path f).segs ≠ [] := by
  simp [documentation_path]

theorem joinStr_joinStr_under (od : FPath) (a b : String) :
    ((od.joinStr a).joinStr b).underEq od = true :=
  underEq_trans (joinStr_underEq (od.joinStr a) b) (joinStr_underEq od a)

theorem write_docs_node_changes (env : DocEnv) (od sp : FPath)
    (dups : List (String × List String)) (gr : Bool) (st : WDState) (n : ApiNode) :
    ChangesWithin st.fs (write_docs_node env od sp dups gr st n).2.fs od := by
  have hparent : ((od.join (documentation_path n.full_name)).parent).underEq od = true :=
    parent_join_underEq od (documentation_path n.full_name).segs
      (documentation_path_segs_ne_nil n.full_name)
  have hpath : (od.join (documentation_path n.full_name)).underEq od = true :=
    join_underEq od (documentation_path n.full_name).segs
  simp only [write_docs_node]
  split
  · exact cw_refl st.fs od
  · split
    · exact cw_refl st.fs od
    · rename_i pi hpi
      have hmk : ChangesWithin st.fs
          ((reportFold st n.full_name pi.metrics).fs.mkdir
            (od.join (documentation_path n.full_name)).parent) od := by
        rw [reportFold_fs]
        exact cw_mkdir hparent
      have hw : ChangesWithin st.fs
          (((reportFold st n.full_name pi.metrics).fs.mkdir
            (od.join (documentation_path n.full_name)).parent).writeFile
            (od.join (documentation_path n.full_name)) (Content.page pi.page_text)) od :=
        cw_trans hmk (cw_writeFile _ hpath)
      split
      · exact hmk
      · split
        · exact hw
        · split
          · exact hw
          · exact hw

theorem write_docs_loop_changes (env : DocEnv) (od sp : FPath)
    (dups : List (String × List String)) (gr : Bool) :
    ∀ (nodes : List ApiNode) (st : WDState),
    ChangesWithin st.fs (write_docs_loop env od sp dups gr nodes st).2.fs od := by
  intro nodes
  induction nodes with
  | nil => intro st; exact cw_refl st.fs od
  | cons n rest ih =>
    intro st
    have hnode := write_docs_node_changes env od sp dups gr st n
    rcases hres : write_docs_node env od sp dups gr st n with ⟨e, st₂⟩
    rw [hres] at hnode
    cases e with
    | some err =>
      simp only [write_docs_loop, hres]
      exact hnode
    | none =>
      simp only [write_docs_loop, hres]
      exact cw_trans hnode (ih st₂)

theorem reportPath_under (od : FPath) (rmn : String) :
    (reportPath od rmn).underEq od = true :=
  joinStr_joinStr_under od rmn ("api_report.pb")

theorem tocPath_under (od : FPath) (rmn : String) :
    (tocPath od rmn).underEq od = true :=
  joinStr_joinStr_under od rmn ("_toc.yaml")

theorem redirectsPath_under (od : FPath) (rmn : String) :
    (redirectsPath od rmn).underEq od = true :=
  joinStr_joinStr_under od rmn ("_redirects.yaml")

theorem allSymbolsPath_under (od : FPath) (rmn : String) :
    (allSymbolsPath od rmn).underEq od = true :=
  joinStr_joinStr_under od rmn ("all_symbols.md")

theorem write_docs_changes (env : DocEnv) (od : FPath) (pc : ParserConfig)
    (yt : Bool) (rmn rt : String) (sh : Bool) (sp : String) (gr grp : Bool) (fs : FS) :
    ChangesWithin fs (write_docs env od pc yt rmn rt sh sp gr grp fs).2 od := by
  unfold write_docs
  split
  · exact cw_refl fs od
  · dsimp only
    have h₀ : ChangesWithin fs (fs.mkdir od) od := cw_mkdir (underEq_refl od)
    have hloopall := write_docs_loop_changes env od (sitePathOf sp) pc.duplicates gr
      pc.api_tree (WDState.mk (fs.mkdir od) [] (if grp then some [] else none) 0)
    rcases hloop : write_docs_loop env od (sitePathOf sp) pc.duplicates gr pc.api_tree
        (WDState.mk (fs.mkdir od) [] (if grp then some [] else none) 0) with ⟨e, st⟩
    rw [hloop] at hloopall
    have hst : ChangesWithin fs st.fs od := cw_trans h₀ hloopall
    cases e with
    | some err => exact hst
    | none =>
      dsimp only
      split
      · rename_i e₁ fs₁ heq
        split at heq
        · rename_i ms harep
          have h := @cw_fsWrite env st.fs od (reportPath od rmn) (Content.apiReport ms)
            (reportPath_under od rmn)
          rw [heq] at h
          exact cw_trans hst h
        · exact absurd heq (by simp)
      · rename_i fs₁ heq
        have h₁ : ChangesWithin fs fs₁ od := by
          split at heq
          · rename_i ms harep
            have h := @cw_fsWrite env st.fs od (reportPath od rmn) (Content.apiReport ms)
              (reportPath_under od rmn)
            rw [heq] at h
            exact cw_trans hst h
          · rw [(Prod.mk.injEq _ _ _ _).mp heq |>.2] at hst
            exact hst
        split
        · exact h₁
        · split
          · rename_i e₂ fs₂ heq₂
            split at heq₂
            · have h := @cw_fsWrite env fs₁ od (tocPath od rmn)
                (Content.tocFile (env.toc_build pc.api_tree)) (tocPath_under od rmn)
              rw [heq₂] at h
              exact cw_trans h₁ h
            · exact absurd heq₂ (by simp)
          · rename_i fs₂ heq₂
            have h₂ : ChangesWithin fs fs₂ od := by
              split at heq₂
              · have h := @cw_fsWrite env fs₁ od (tocPath od rmn)
                  (Content.tocFile (env.toc_build pc.api_tree)) (tocPath_under od rmn)
                rw [heq₂] at h
                exact cw_trans h₁ h
              · rw [(Prod.mk.injEq _ _ _ _).mp heq₂ |>.2] at h₁
                exact h₁
            split
            · rename_i e₃ fs₃ heq₃
              split at heq₃
              · have h := @cw_fsWrite env fs₂ od (redirectsPath od rmn)
                  (Content.redirectsYaml (sortRed st.redirects)) (redirectsPath_under od rmn)
                rw [heq₃] at h
                exact cw_trans h₂ h
              · exact absurd heq₃ (by simp)
            · rename_i fs₃ heq₃
              have h₃ : ChangesWithin fs fs₃ od := by
                split at heq₃
                · have h := @cw_fsWrite env fs₂ od (redirectsPath od rmn)
                    (Content.redirectsYaml (sortRed st.redirects)) (redirectsPath_under od rmn)
                  rw [heq₃] at h
                  exact cw_trans h₂ h
                · rw [(Prod.mk.injEq _ _ _ _).mp heq₃ |>.2] at h₂
                  exact h₂
              exact cw_trans h₃ (cw_fsWrite _ (allSymbolsPath_under od rmn))

-- ## Success-path decomposition of write_docs

theorem write_docs_ok_eq (env : DocEnv) (od : FPath) (pc : ParserConfig)
    (yt : Bool) (rmn rt : String) (sh : Bool) (sp : String) (gr grp : Bool) (fs : FS)
    (habs : od.absolute = true)
    (hio : ∀ p, env.io_fail p = false)
    (hr : ∀ n ∈ pc.api_tree, n.output_type = OutputType.PAGE →
      (env.render n.full_name).isSome = true) :
    ∃ st : WDState,
      write_docs_loop env od (sitePathOf sp) pc.duplicates gr pc.api_tree
        (WDState.mk (fs.mkdir od) [] (if grp then some [] else none) 0) = (none, st)
      ∧ st.num_docs_output = countPages pc.api_tree
      ∧ st.redirects = (if gr then allEntries (sitePathOf sp) pc.duplicates pc.api_tree else [])
      ∧ st.api_report = (if grp then some (pageMetrics env pc.api_tree) else none)
      ∧ (∀ p c, (p, c) ∈ st.fs.files → (p, c) ∈ fs.files ∨ ∃ t, c = Content.page t)
      ∧ write_docs env od pc yt rmn rt sh sp gr grp fs
          = (if st.num_docs_output ≤ 1 then (some DocError.emptyResult, wdReportFS od rmn st)
             else (none, wdFinalFS env od rmn rt sh yt gr pc.api_tree st)) := by
  obtain ⟨l1, l2, l3, l4, l5⟩ := write_docs_loop_ok env od (sitePathOf sp) pc.duplicates gr
    pc.api_tree (WDState.mk (fs.mkdir od) [] (if grp then some [] else none) 0) hio hr
  set st := (write_docs_loop env od (sitePathOf sp) pc.duplicates gr pc.api_tree
    (WDState.mk (fs.mkdir od) [] (if grp then some [] else none) 0)).2 with hst
  have hpair : write_docs_loop env od (sitePathOf sp) pc.duplicates gr pc.api_tree
      (WDState.mk (fs.mkdir od) [] (if grp then some [] else none) 0) = (none, st) :=
    Prod.ext_iff.mpr ⟨l1, rfl⟩
  refine ⟨st, hpair, by simpa using l2, by simpa using l3, ?_, ?_, ?_⟩
  · rw [l4]
    cases grp <;> simp
  · intro p c h
    rcases l5 p c h with hm | hm
    · rw [mkdir_files] at hm
      exact Or.inl hm
    · exact Or.inr hm
  · simp only [write_docs, habs, Bool.not_true, Bool.false_eq_true, if_false, hpair]
    cases harep : st.api_report with
    | none =>
      simp only [harep, wdReportFS, wdFinalFS, wdTocFS, wdRedFS]
      split
      · rfl
      · cases yt with
        | true =>
          simp only [if_true, fsWrite, hio, Bool.false_eq_true, if_false]
          cases hgred : (!st.redirects.isEmpty && gr) <;>
            simp [fsWrite, hio, hgred]
        | false =>
          simp only [Bool.false_eq_true, if_false]
          cases hgred : (!st.redirects.isEmpty && gr) <;>
            simp [fsWrite, hio, hgred]
    | some ms =>
      simp only [harep, wdReportFS, wdFinalFS, wdTocFS, wdRedFS, fsWrite, hio,
        Bool.false_eq_true, if_false]
      split
      · rfl
      · cases yt with
        | true =>
          simp only [if_true, fsWrite, hio, Bool.false_eq_true, if_false]
          cases hgred : (!st.redirects.isEmpty && gr) <;>
            simp [fsWrite, hio, hgred]
        | false =>
          simp only [Bool.false_eq_true, if_false]
          cases hgred : (!st.redirects.isEmpty && gr) <;>
            simp [fsWrite, hio, hgred]

-- ## Path disequalities between the fixed artifact paths

theorem joinStr_ne_of_single (base : FPath) (a b : String)
    (ha : splitSlash a = [a]) (hb : splitSlash b = [b]) (hab : a ≠ b) :
    base.joinStr a ≠ base.joinStr b := by
  intro h
  simp only [FPath.joinStr, FPath.join, ha, hb, Bool.false_eq_true, if_false,
    FPath.mk.injEq] at h
  exact hab (by simpa using List.append_cancel_left h.2)

theorem reportPath_ne_tocPath (od : FPath) (rmn : String) :
    reportPath od rmn ≠ tocPath od rmn :=
  joinStr_ne_of_single (od.joinStr rmn) _ _ (by decide) (by decide) (by decide)

theorem reportPath_ne_redirectsPath (od : FPath) (rmn : String) :
    reportPath od rmn ≠ redirectsPath od rmn :=
  joinStr_ne_of_single (od.joinStr rmn) _ _ (by decide) (by decide) (by decide)

theorem reportPath_ne_allSymbolsPath (od : FPath) (rmn : String) :
    reportPath od rmn ≠ allSymbolsPath od rmn :=
  joinStr_ne_of_single (od.joinStr rmn) _ _ (by decide) (by decide) (by decide)

theorem redirectsPath_ne_allSymbolsPath (od : FPath) (rmn : String) :
    redirectsPath od rmn ≠ allSymbolsPath od rmn :=
  joinStr_ne_of_single (od.joinStr rmn) _ _ (by decide) (by decide) (by decide)

-- ## The redirect sort: sortedness and multiplicities

theorem listLeB_total : ∀ (a b : List Char), listLeB a b = true ∨ listLeB b a = true
  | [], _ => Or.inl rfl
  | _ :: _, [] => Or.inr rfl
  | a :: as, b :: bs => by
    simp only [listLeB]
    by_cases hab : a = b
    · subst hab
      simp only [if_pos rfl]
      exact listLeB_total as bs
    · have hba : b ≠ a := fun h => hab h.symm
      simp only [if_neg hab, if_neg hba]
      rcases lt_or_gt_of_ne hab with h | h
      · left; exact decide_eq_true h
      · right; exact decide_eq_true h

theorem strLeB_total (a b : String) : strLeB a b = true ∨ strLeB b a = true :=
  listLeB_total a.data b.data

theorem insertSorted_cases (e y : Redirect) (t : List Redirect) :
    (strLeB y.redirect_from e.redirect_from = true
      ∧ insertSorted e (y :: t) = y :: insertSorted e t)
    ∨ (strLeB y.redirect_from e.redirect_from = false
      ∧ insertSorted e (y :: t) = e :: y :: t) := by
  by_cases h : strLeB y.redirect_from e.redirect_from = true
  · left
    refine ⟨h, ?_⟩
    rw [insertSorted, if_pos h]
  · right
    refine ⟨?_, ?_⟩
    · revert h
      cases strLeB y.redirect_from e.redirect_from <;> simp
    · rw [insertSorted, if_neg h]

theorem sortedAdjB_cons_of (x : Redirect) (l : List Redirect)
    (hl : sortedAdjB l = true)
    (hhead : ∀ z t₂, l = z :: t₂ → strLeB x.redirect_from z.redirect_from = true) :
    sortedAdjB (x :: l) = true := by
  cases l with
  | nil => rfl
  | cons z t₂ => simp [sortedAdjB, hhead z t₂ rfl, hl]

theorem sortedAdjB_cons_inv {x : Redirect} {l : List Redirect}
    (h : sortedAdjB (x :: l) = true) :
    sortedAdjB l = true
    ∧ (∀ z t₂, l = z :: t₂ → strLeB x.redirect_from z.redirect_from = true) := by
  cases l with
  | nil => exact ⟨rfl, fun z t₂ he => by cases he⟩
  | cons z t₂ =>
    simp only [sortedAdjB, Bool.and_eq_true] at h
    refine ⟨h.2, fun z₂ t₃ he => ?_⟩
    injection he with he₁ he₂
    rw [← he₁]
    exact h.1

theorem insertSorted_head_cases (e : Redirect) (l : List Redirect) :
    ∀ z t₂, insertSorted e l = z :: t₂ → z = e ∨ (∃ t₃, l = z :: t₃) := by
  cases l with
  | nil =>
    intro z t₂ h
    injection h with h₁ _
    exact Or.inl h₁.symm
  | cons y t =>
    intro z t₂ h
    rcases insertSorted_cases e y t with ⟨_, heq⟩ | ⟨_, heq⟩
    · rw [heq] at h
      injection h with h₁ _
      exact Or.inr ⟨t, by rw [h₁]⟩
    · rw [heq] at h
      injection h with h₁ _
      exact Or.inl h₁.symm

theorem sortedAdjB_insertSorted (e : Redirect) :
    ∀ (l : List Redirect), sortedAdjB l = true → sortedAdjB (insertSorted e l) = true := by
  intro l
  induction l with
  | nil => intro _; rfl
  | cons y t ih =>
    intro h
    obtain ⟨ht, hhead⟩ := sortedAdjB_cons_inv h
    rcases insertSorted_cases e y t with ⟨hc, heq⟩ | ⟨hc, heq⟩
    · rw [heq]
      apply sortedAdjB_cons_of
      · exact ih ht
      · intro z t₂ hz
        rcases insertSorted_head_cases e t z t₂ hz with rfl | ⟨t₃, ht₃⟩
        · exact hc
        · exact hhead z t₃ ht₃
    · rw [heq]
      apply sortedAdjB_cons_of
      · exact h
      · intro z t₂ hz
        injection hz with h₁ h₂
        rw [← h₁]
        rcases strLeB_total e.redirect_from y.redirect_from with htot | htot
        · exact htot
        · rw [htot] at hc
          exact absurd hc (by simp)

theorem sortedAdjB_foldl :
    ∀ (l acc : List Redirect), sortedAdjB acc = true →
      sortedAdjB (l.foldl (fun acc e => insertSorted e acc) acc) = true
  | [], acc, h => h
  | x :: t, acc, h => by
    simp only [List.foldl_cons]
    exact sortedAdjB_foldl t _ (sortedAdjB_insertSorted x acc h)

theorem sortedAdjB_sortRed (l : List Redirect) : sortedAdjB (sortRed l) = true :=
  sortedAdjB_foldl l [] rfl

theorem redirect_beq_comm (a b : Redirect) : (a == b) = (b == a) := by
  by_cases h : a = b
  · rw [h]
  · have h₂ : ¬(b = a) := fun he => h he.symm
    rw [beq_eq_false_iff_ne.mpr h, beq_eq_false_iff_ne.mpr h₂]

theorem count_insertSorted (e x : Redirect) :
    ∀ (l : List Redirect),
      (insertSorted e l).count x = l.count x + (if x == e then 1 else 0) := by
  intro l
  induction l with
  | nil =>
    rw [insertSorted]
    simp only [List.count_cons, List.count_nil, redirect_beq_comm e x]
  | cons y t ih =>
    rcases insertSorted_cases e y t with ⟨_, heq⟩ | ⟨_, heq⟩ <;> rw [heq]
    · simp only [List.count_cons, ih]
      omega
    · simp only [List.count_cons, redirect_beq_comm e x]

theorem count_foldl_insert :
    ∀ (l acc : List Redirect) (x : Redirect),
      (l.foldl (fun acc e => insertSorted e acc) acc).count x = acc.count x + l.count x
  | [], acc, x => by simp
  | y :: t, acc, x => by
    simp only [List.foldl_cons, List.count_cons]
    rw [count_foldl_insert t _ x, count_insertSorted y x acc, redirect_beq_comm x y]
    omega

theorem count_sortRed (l : List Redirect) (x : Redirect) :
    (sortRed l).count x = l.count x := by
  unfold sortRed
  rw [count_foldl_insert l [] x]
  simp

-- ## Multiplicity of one redirect entry in allEntries

theorem count_map_eq_count {α β : Type} [DecidableEq α] [DecidableEq β]
    (f : α → β) (x : α) (y : β) (hfy : f x = y) :
    ∀ (l : List α), (∀ a ∈ l, f a = y → a = x) → (l.map f).count y = l.count x := by
  intro l
  induction l with
  | nil => intro _; rfl
  | cons a t ih =>
    intro h
    simp only [List.map_cons, List.count_cons]
    rw [ih (fun b hb => h b (List.mem_cons_of_mem a hb))]
    congr 1
    by_cases ha : a = x
    · subst ha
      simp [hfy]
    · have hne : f a ≠ y := fun hf => ha (h a (List.mem_cons_self a t) hf)
      simp [ha, hne]

theorem count_allEntries_mul (sp : FPath) (dups : List (String × List String))
    (c d : String) :
    ∀ (tree : List ApiNode),
      (∀ n ∈ tree, n.output_type = OutputType.PAGE → ∀ d₂ ∈ dupsOf dups n.full_name,
        mkRedirect sp d₂ n.full_name = mkRedirect sp d c → (n.full_name = c ∧ d₂ = d)) →
      (allEntries sp dups tree).count (mkRedirect sp d c)
        = (pagesNamed tree c).length * ((dupsOf dups c).count d) := by
  intro tree
  induction tree with
  | nil => intro _; simp [pagesNamed, allEntries]
  | cons n t ih =>
    intro h
    have htail := ih (fun m hm => h m (List.mem_cons_of_mem n hm))
    rw [allEntries, List.count_append, htail]
    by_cases hty : n.output_type = OutputType.PAGE
    · by_cases hname : n.full_name = c
      · have hcount : (nodeEntriesPage sp dups n).count (mkRedirect sp d c)
            = (dupsOf dups c).count d := by
          rw [nodeEntriesPage, if_pos hty, nodeEntries, hname]
          refine count_map_eq_count (fun dup => mkRedirect sp dup c) d
            (mkRedirect sp d c) rfl (dupsOf dups c) ?_
          intro d₂ hd₂ heq
          exact (h n (List.mem_cons_self n t) hty d₂ (by rw [hname]; exact hd₂)
            (by rw [hname]; exact heq)).2
        have hpn : pagesNamed (n :: t) c = n :: pagesNamed t c := by
          rw [pagesNamed, List.filter_cons, if_pos (by simp [hty, hname]), pagesNamed]
        rw [hcount, hpn, List.length_cons]
        rw [Nat.succ_mul]
        omega
      · have hcount : (nodeEntriesPage sp dups n).count (mkRedirect sp d c) = 0 := by
          rw [nodeEntriesPage, if_pos hty, List.count_eq_zero]
          intro hm
          obtain ⟨d₂, hd₂, heq⟩ := List.mem_map.mp hm
          exact hname (h n (List.mem_cons_self n t) hty d₂ hd₂ heq).1
        have hpn : pagesNamed (n :: t) c = pagesNamed t c := by
          rw [pagesNamed, List.filter_cons, if_neg (by simp [hname]), pagesNamed]
        rw [hcount, hpn]
        omega
    · have hcount : (nodeEntriesPage sp dups n).count (mkRedirect sp d c) = 0 := by
        rw [nodeEntriesPage, if_neg hty]
        rfl
      have hpn : pagesNamed (n :: t) c = pagesNamed t c := by
        rw [pagesNamed, List.filter_cons, if_neg (by simp [hty]), pagesNamed]
      rw [hcount, hpn]
      omega

-- ## alookup lemmas (Python dict lookups)

theorem alookup_mem {β : Type} (k : String) (v : β) :
    ∀ (l : List (String × β)), alookup k l = some v → (k, v) ∈ l := by
  intro l
  induction l with
  | nil => intro h; cases h
  | cons e rest ih =>
    intro h
    obtain ⟨k₂, v₂⟩ := e
    rw [alookup] at h
    by_cases hk : k = k₂
    · rw [if_pos hk] at h
      injection h with h₁
      subst hk
      subst h₁
      exact List.mem_cons_self _ _
    · rw [if_neg hk] at h
      exact List.mem_cons_of_mem _ (ih h)

theorem alookup_none_not_mem {β : Type} (k : String) :
    ∀ (l : List (String × β)), alookup k l = none → k ∉ l.map Prod.fst := by
  intro l
  induction l with
  | nil => intro _ h; cases h
  | cons e rest ih =>
    intro h hm
    obtain ⟨k₂, v₂⟩ := e
    rw [alookup] at h
    by_cases hk : k = k₂
    · rw [if_pos hk] at h
      cases h
    · rw [if_neg hk] at h
      simp only [List.map_cons, List.mem_cons] at hm
      rcases hm with hm | hm
      · exact hk hm
      · exact ih h hm

theorem alookup_append_ne {β : Type} (k k₂ : String) (v₂ : β) (hk : k ≠ k₂) :
    ∀ (l : List (String × β)), alookup k (l ++ [(k₂, v₂)]) = alookup k l := by
  intro l
  induction l with
  | nil => simp [alookup, hk]
  | cons e rest ih =>
    obtain ⟨k₃, v₃⟩ := e
    rw [List.cons_append, alookup, alookup]
    by_cases hk₃ : k = k₃
    · rw [if_pos hk₃, if_pos hk₃]
    · rw [if_neg hk₃, if_neg hk₃]
      exact ih

theorem alookup_append_self {β : Type} (k : String) (v : β) :
    ∀ (l : List (String × β)), alookup k l = none → alookup k (l ++ [(k, v)]) = some v := by
  intro l
  induction l with
  | nil => simp [alookup]
  | cons e rest ih =>
    intro h
    obtain ⟨k₃, v₃⟩ := e
    rw [alookup] at h
    rw [List.cons_append, alookup]
    by_cases hk₃ : k = k₃
    · rw [if_pos hk₃] at h
      cases h
    · rw [if_neg hk₃] at h
      rw [if_neg hk₃]
      exact ih h

-- ## The specification of add_dict_to_dict's loop

theorem add_go_spec :
    ∀ (rest : List (String × Nat)) (add_to : PyDict) (h : PyHeap),
      (rest.map Prod.fst).Nodup →
      (∀ k₁ r₁ k₂ r₂ m₁ m₂, (k₁, r₁) ∈ rest → (k₂, r₂) ∈ rest →
        add_to.lookup k₁ = some m₁ → add_to.lookup k₂ = some m₂ → m₁ = m₂ → k₁ = k₂) →
      (∀ k₁ r₁ k₂ r₂ m, (k₁, r₁) ∈ rest → (k₂, r₂) ∈ rest →
        add_to.lookup k₂ = some m → r₁ ≠ m) →
      (∀ k, k ∉ rest.map Prod.fst →
        (add_dict_to_dict_go h add_to rest).1.lookup k = add_to.lookup k)
      ∧ (∀ m, (∀ k₂ r₂, (k₂, r₂) ∈ rest → add_to.lookup k₂ ≠ some m) →
        (add_dict_to_dict_go h add_to rest).2 m = h m)
      ∧ (∀ k r, (k, r) ∈ rest →
          (match add_to.lookup k with
           | some m => (add_dict_to_dict_go h add_to rest).1.lookup k = some m
               ∧ (add_dict_to_dict_go h add_to rest).2 m = h m ++ h r
           | none => (add_dict_to_dict_go h add_to rest).1.lookup k = some r
               ∧ (add_dict_to_dict_go h add_to rest).2 r = h r)) := by
  intro rest
  induction rest with
  | nil =>
    intro add_to h _ _ _
    exact ⟨fun k _ => rfl, fun m _ => rfl, fun k r hm => absurd hm (List.not_mem_nil _)⟩
  | cons e rest ih =>
    obtain ⟨k₀, r₀⟩ := e
    intro add_to h hnodup H2 H3
    rw [List.map_cons, List.nodup_cons] at hnodup
    obtain ⟨hk₀, hnodup'⟩ := hnodup
    have hk₀ : k₀ ∉ List.map Prod.fst rest := hk₀
    cases hl : add_to.lookup k₀ with
    | some m₀ =>
      have hgo : add_dict_to_dict_go h add_to ((k₀, r₀) :: rest)
          = add_dict_to_dict_go (heapWrite h m₀ (h m₀ ++ h r₀)) add_to rest := by
        rw [add_dict_to_dict_go, hl]
      obtain ⟨C1, C2, C3⟩ := ih add_to (heapWrite h m₀ (h m₀ ++ h r₀)) hnodup'
        (fun k₁ r₁ k₂ r₂ m₁ m₂ hm₁ hm₂ => H2 k₁ r₁ k₂ r₂ m₁ m₂
          (List.mem_cons_of_mem _ hm₁) (List.mem_cons_of_mem _ hm₂))
        (fun k₁ r₁ k₂ r₂ m hm₁ hm₂ => H3 k₁ r₁ k₂ r₂ m
          (List.mem_cons_of_mem _ hm₁) (List.mem_cons_of_mem _ hm₂))
      have hknotrest : ∀ k₂ r₂, (k₂, r₂) ∈ rest → add_to.lookup k₂ ≠ some m₀ := by
        intro k₂ r₂ hm₂ hlk₂
        apply hk₀
        have : k₀ = k₂ := H2 k₀ r₀ k₂ r₂ m₀ m₀ (List.mem_cons_self _ _)
          (List.mem_cons_of_mem _ hm₂) hl hlk₂ rfl
        rw [this]
        exact List.mem_map_of_mem Prod.fst hm₂
      refine ⟨?_, ?_, ?_⟩
      · intro k hk
        rw [List.map_cons, List.mem_cons, not_or] at hk
        rw [hgo]
        exact C1 k hk.2
      · intro m hm
        rw [hgo]
        rw [C2 m (fun k₂ r₂ hm₂ => hm k₂ r₂ (List.mem_cons_of_mem _ hm₂))]
        have hne : m ≠ m₀ := by
          intro hmeq
          exact hm k₀ r₀ (List.mem_cons_self _ _) (by rw [hmeq]; exact hl)
        simp only [heapWrite]
        rw [if_neg hne]
      · intro k r hm
        rcases List.mem_cons.mp hm with heq | hmem
        · injection heq with hk hr
          subst hk
          subst hr
          rw [hl, hgo]
          constructor
          · rw [C1 k hk₀]
            exact hl
          · rw [C2 m₀ hknotrest]
            simp [heapWrite]
        · have hc := C3 k r hmem
          have hkrest : k ∈ rest.map Prod.fst := List.mem_map_of_mem Prod.fst hmem
          cases hlk : add_to.lookup k with
          | some m =>
            rw [hlk] at hc
            rw [hgo]
            refine ⟨hc.1, ?_⟩
            rw [hc.2]
            have hmne : m ≠ m₀ := by
              intro hmeq
              apply hk₀
              have : k = k₀ := H2 k r k₀ r₀ m m₀ (List.mem_cons_of_mem _ hmem)
                (List.mem_cons_self _ _) hlk hl hmeq
              rw [← this]
              exact hkrest
            have hrne : r ≠ m₀ := H3 k r k₀ r₀ m₀ (List.mem_cons_of_mem _ hmem)
              (List.mem_cons_self _ _) hl
            simp only [heapWrite]
            rw [if_neg hmne, if_neg hrne]
          | none =>
            rw [hlk] at hc
            rw [hgo]
            refine ⟨hc.1, ?_⟩
            rw [hc.2]
            have hrne : r ≠ m₀ := H3 k r k₀ r₀ m₀ (List.mem_cons_of_mem _ hmem)
              (List.mem_cons_self _ _) hl
            simp only [heapWrite]
            rw [if_neg hrne]
    | none =>
      have hgo : add_dict_to_dict_go h add_to ((k₀, r₀) :: rest)
          = add_dict_to_dict_go h (add_to.insertNew k₀ r₀) rest := by
        rw [add_dict_to_dict_go, hl]
      have ht₁ : ∀ k₂, k₂ ≠ k₀ →
          (add_to.insertNew k₀ r₀).lookup k₂ = add_to.lookup k₂ := by
        intro k₂ hk₂
        exact alookup_append_ne k₂ k₀ r₀ hk₂ add_to.entries
      have ht₀ : (add_to.insertNew k₀ r₀).lookup k₀ = some r₀ :=
        alookup_append_self k₀ r₀ add_to.entries hl
      have hne₀ : ∀ k₂ r₂, (k₂, r₂) ∈ rest → k₂ ≠ k₀ := by
        intro k₂ r₂ hm₂ hk₂
        apply hk₀
        rw [← hk₂]
        exact List.mem_map_of_mem Prod.fst hm₂
      obtain ⟨C1, C2, C3⟩ := ih (add_to.insertNew k₀ r₀) h hnodup'
        (fun k₁ r₁ k₂ r₂ m₁ m₂ hm₁ hm₂ hl₁ hl₂ => H2 k₁ r₁ k₂ r₂ m₁ m₂
          (List.mem_cons_of_mem _ hm₁) (List.mem_cons_of_mem _ hm₂)
          (by rw [← ht₁ k₁ (hne₀ k₁ r₁ hm₁)]; exact hl₁)
          (by rw [← ht₁ k₂ (hne₀ k₂ r₂ hm₂)]; exact hl₂))
        (fun k₁ r₁ k₂ r₂ m hm₁ hm₂ hl₂ => H3 k₁ r₁ k₂ r₂ m
          (List.mem_cons_of_mem _ hm₁) (List.mem_cons_of_mem _ hm₂)
          (by rw [← ht₁ k₂ (hne₀ k₂ r₂ hm₂)]; exact hl₂))
      refine ⟨?_, ?_, ?_⟩
      · intro k hk
        rw [List.map_cons, List.mem_cons, not_or] at hk
        rw [hgo, C1 k hk.2]
        exact ht₁ k hk.1
      · intro m hm
        rw [hgo]
        refine C2 m ?_
        intro k₂ r₂ hm₂
        rw [ht₁ k₂ (hne₀ k₂ r₂ hm₂)]
        exact hm k₂ r₂ (List.mem_cons_of_mem _ hm₂)
      · intro k r hm
        rcases List.mem_cons.mp hm with heq | hmem
        · injection heq with hk hr
          subst hk
          subst hr
          rw [hl, hgo]
          constructor
          · rw [C1 k hk₀]
            exact ht₀
          · refine C2 r ?_
            intro k₂ r₂ hm₂
            rw [ht₁ k₂ (hne₀ k₂ r₂ hm₂)]
            intro hlk₂
            exact H3 k r k₂ r₂ r (List.mem_cons_self _ _)
              (List.mem_cons_of_mem _ hm₂) hlk₂ rfl
        · have hc := C3 k r hmem
          rw [ht₁ k (hne₀ k r hmem)] at hc
          rw [hgo]
          exact hc

-- ## Restriction of the destination under changes inside the workdir

theorem restrict_eq_of_changes {fs fs₂ : FS} {wd od : FPath}
    (h1 : wd.underEq od = false) (h2 : od.underEq wd = false)
    (hc : ChangesWithin fs fs₂ wd) :
    fs₂.restrictTo od = fs.restrictTo od := by
  have himp : ∀ q : FPath, FPath.underEq q od = true → (!(FPath.underEq q wd)) = true := by
    intro q hq
    cases hqwd : FPath.underEq q wd
    · simp
    · rcases underEq_comparable hq hqwd with hcomp | hcomp
      · rw [hcomp] at h2
        cases h2
      · rw [hcomp] at h1
        cases h1
  obtain ⟨ha, hb, _, _⟩ := hc
  unfold FS.restrictTo
  have hfiles : fs₂.files.filter (fun e => FPath.underEq e.1 od)
      = fs.files.filter (fun e => FPath.underEq e.1 od) := by
    calc fs₂.files.filter (fun e => FPath.underEq e.1 od)
        = (fs₂.files.filter (fun e => !(FPath.underEq e.1 wd))).filter
            (fun e => FPath.underEq e.1 od) :=
          (filter_imp_eq _ _ fs₂.files (fun e he => himp e.1 he)).symm
      _ = (fs.files.filter (fun e => !(FPath.underEq e.1 wd))).filter
            (fun e => FPath.underEq e.1 od) := by rw [ha]
      _ = fs.files.filter (fun e => FPath.underEq e.1 od) :=
          filter_imp_eq _ _ fs.files (fun e he => himp e.1 he)
  have hdirs : fs₂.dirs.filter (fun p => FPath.underEq p od)
      = fs.dirs.filter (fun p => FPath.underEq p od) := by
    calc fs₂.dirs.filter (fun p => FPath.underEq p od)
        = (fs₂.dirs.filter (fun p => !(FPath.underEq p wd))).filter
            (fun p => FPath.underEq p od) :=
          (filter_imp_eq _ _ fs₂.dirs himp).symm
      _ = (fs.dirs.filter (fun p => !(FPath.underEq p wd))).filter
            (fun p => FPath.underEq p od) := by rw [hb]
      _ = fs.dirs.filter (fun p => FPath.underEq p od) :=
          filter_imp_eq _ _ fs.dirs himp
  rw [hfiles, hdirs]

-- ## Everything a failed build touched lies under the workdir

theorem build_changes_or_ok (env : DocEnv) (cfg : DocGeneratorCfg)
    (workdir output_dir : FPath) (fs : FS) :
    (build env cfg workdir output_dir fs).1 = none
    ∨ ChangesWithin fs (build env cfg workdir output_dir fs).2 workdir := by
  unfold build
  dsimp only
  cases hex : run_extraction env cfg with
  | error e =>
    exact Or.inr (cw_refl fs workdir)
  | ok pc =>
    dsimp only
    have hwall := write_docs_changes env (workdir.joinStr ("api_docs/python")) pc cfg.yaml_toc
      (replaceDots cfg.short_name) cfg.root_title cfg.search_hints cfg.site_path
      cfg.gen_redirects cfg.gen_report fs
    rcases hwd : write_docs env (workdir.joinStr ("api_docs/python")) pc cfg.yaml_toc
        (replaceDots cfg.short_name) cfg.root_title cfg.search_hints cfg.site_path
        cfg.gen_redirects cfg.gen_report fs with ⟨e, fs₁⟩
    have hw : ChangesWithin fs fs₁ workdir := by
      refine cw_widen (joinStr_underEq workdir ("api_docs/python")) ?_
      first
      | exact hwall
      | (rw [hwd] at hwall; exact hwall)
    cases e with
    | some err => exact Or.inr hw
    | none =>
      dsimp only
      have hcache : ChangesWithin fs
          (if cfg.api_cache then
            fsWrite env fs₁
              (((workdir.joinStr ("api_docs/python")).joinStr
                (replaceDots cfg.short_name)).joinStr ("_api_cache.json"))
              Content.apiCacheFile
          else (none, fs₁)).2 workdir := by
        split
        · refine cw_trans hw (cw_fsWrite _ ?_)
          exact underEq_trans
            (joinStr_joinStr_under (workdir.joinStr ("api_docs/python"))
              (replaceDots cfg.short_name) ("_api_cache.json"))
            (joinStr_underEq workdir ("api_docs/python"))
        · exact hw
      rcases hc : (if cfg.api_cache then
          fsWrite env fs₁
            (((workdir.joinStr ("api_docs/python")).joinStr
              (replaceDots cfg.short_name)).joinStr ("_api_cache.json"))
            Content.apiCacheFile
        else (none, fs₁)) with ⟨e₂, fs₂⟩
      have hc₂ : ChangesWithin fs fs₂ workdir := by
        first
        | exact hcache
        | (rw [hc] at hcache; exact hcache)
      cases e₂ with
      | some err => exact Or.inr hc₂
      | none => exact Or.inl rfl

-- ## Membership inversions through the post-loop writes

theorem mem_wdReportFS_inv {od : FPath} {rmn : String} {st : WDState} {p : FPath}
    {c : Content} (h : (p, c) ∈ (wdReportFS od rmn st).files) :
    (p, c) ∈ st.fs.files ∨ (p = reportPath od rmn ∧ ∃ ms, c = Content.apiReport ms) := by
  rw [wdReportFS] at h
  split at h
  · rcases mem_writeFile_inv h with h | ⟨h₁, h₂⟩
    · exact Or.inl h
    · exact Or.inr ⟨h₁, _, h₂⟩
  · exact Or.inl h

theorem mem_wdTocFS_inv {env : DocEnv} {od : FPath} {rmn : String} {yt : Bool}
    {tree : List ApiNode} {fs₁ : FS} {p : FPath} {c : Content}
    (h : (p, c) ∈ (wdTocFS env od rmn yt tree fs₁).files) :
    (p, c) ∈ fs₁.files ∨ (p = tocPath od rmn ∧ ∃ d, c = Content.tocFile d) := by
  rw [wdTocFS] at h
  split at h
  · rcases mem_writeFile_inv h with h | ⟨h₁, h₂⟩
    · exact Or.inl h
    · exact Or.inr ⟨h₁, _, h₂⟩
  · exact Or.inl h

theorem mem_wdRedFS_inv {od : FPath} {rmn : String} {gr : Bool}
    {redirects : List Redirect} {fs₂ : FS} {p : FPath} {c : Content}
    (h : (p, c) ∈ (wdRedFS od rmn gr redirects fs₂).files) :
    (p, c) ∈ fs₂.files ∨ (p = redirectsPath od rmn ∧ ∃ l, c = Content.redirectsYaml l) := by
  rw [wdRedFS] at h
  split at h
  · rcases mem_writeFile_inv h with h | ⟨h₁, h₂⟩
    · exact Or.inl h
    · exact Or.inr ⟨h₁, _, h₂⟩
  · exact Or.inl h

theorem mem_wdFinalFS_inv {env : DocEnv} {od : FPath} {rmn rt : String}
    {sh yt gr : Bool} {tree : List ApiNode} {st : WDState} {p : FPath} {c : Content}
    (h : (p, c) ∈ (wdFinalFS env od rmn rt sh yt gr tree st).files) :
    (p, c) ∈ st.fs.files
    ∨ (p = reportPath od rmn ∧ ∃ ms, c = Content.apiReport ms)
    ∨ (p = tocPath od rmn ∧ ∃ d, c = Content.tocFile d)
    ∨ (p = redirectsPath od rmn ∧ ∃ l, c = Content.redirectsYaml l)
    ∨ (p = allSymbolsPath od rmn ∧ c = Content.globalIndex rt (!sh)) := by
  rw [wdFinalFS] at h
  rcases mem_writeFile_inv h with h | ⟨h₁, h₂⟩
  · rcases mem_wdRedFS_inv h with h | hr
    · rcases mem_wdTocFS_inv h with h | ht
      · rcases mem_wdReportFS_inv h with h | hp
        · exact Or.inl h
        · exact Or.inr (Or.inl hp)
      · exact Or.inr (Or.inr (Or.inl ht))
    · exact Or.inr (Or.inr (Or.inr (Or.inl hr)))
  · exact Or.inr (Or.inr (Or.inr (Or.inr ⟨h₁, h₂⟩)))

theorem report_mem_final (env : DocEnv) (od : FPath) (rmn rt : String)
    (sh yt gr : Bool) (tree : List ApiNode) (st : WDState) (ms : List Nat)
    (h4 : st.api_report = some ms) :
    (reportPath od rmn, Content.apiReport ms)
      ∈ (wdFinalFS env od rmn rt sh yt gr tree st).files := by
  have h₁ : (reportPath od rmn, Content.apiReport ms) ∈ (wdReportFS od rmn st).files := by
    rw [wdReportFS, h4]
    exact mem_writeFile_self _ _ _
  have h₂ : (reportPath od rmn, Content.apiReport ms)
      ∈ (wdTocFS env od rmn yt tree (wdReportFS od rmn st)).files := by
    rw [wdTocFS]
    split
    · exact mem_writeFile_of_ne (reportPath_ne_tocPath od rmn) h₁
    · exact h₁
  have h₃ : (reportPath od rmn, Content.apiReport ms)
      ∈ (wdRedFS od rmn gr st.redirects (wdTocFS env od rmn yt tree (wdReportFS od rmn st))).files := by
    rw [wdRedFS]
    split
    · exact mem_writeFile_of_ne (reportPath_ne_redirectsPath od rmn) h₂
    · exact h₂
  rw [wdFinalFS]
  exact mem_writeFile_of_ne (reportPath_ne_allSymbolsPath od rmn) h₃

theorem manifest_mem_final (env : DocEnv) (od : FPath) (rmn rt : String)
    (sh yt : Bool) (tree : List ApiNode) (st : WDState) (hne : st.redirects ≠ []) :
    (redirectsPath od rmn, Content.redirectsYaml (sortRed st.redirects))
      ∈ (wdFinalFS env od rmn rt sh yt true tree st).files := by
  have hcond : (!st.redirects.isEmpty && true) = true := by
    cases hr : st.redirects with
    | nil => exact absurd hr hne
    | cons a t => rfl
  have h₁ : (redirectsPath od rmn, Content.redirectsYaml (sortRed st.redirects))
      ∈ (wdRedFS od rmn true st.redirects
          (wdTocFS env od rmn yt tree (wdReportFS od rmn st))).files := by
    rw [wdRedFS, if_pos hcond]
    exact mem_writeFile_self _ _ _
  rw [wdFinalFS]
  exact mem_writeFile_of_ne (redirectsPath_ne_allSymbolsPath od rmn) h₁

-- ## Key equality from reference uniqueness (add_dict_to_dict)

theorem key_eq_of_snd_nodup :
    ∀ (l : List (String × Nat)), (l.map Prod.snd).Nodup →
      ∀ k₁ k₂ m, (k₁, m) ∈ l → (k₂, m) ∈ l → k₁ = k₂ := by
  intro l
  induction l with
  | nil => intro _ _ _ _ h1; cases h1
  | cons e t ih =>
    obtain ⟨ke, ve⟩ := e
    intro h k₁ k₂ m h1 h2
    rw [List.map_cons, List.nodup_cons] at h
    rcases List.mem_cons.mp h1 with he1 | h1' <;> rcases List.mem_cons.mp h2 with he2 | h2'
    · injection he1 with a1 b1
      injection he2 with a2 b2
      rw [a1, a2]
    · injection he1 with a1 b1
      exfalso
      apply h.1
      show ve ∈ List.map Prod.snd t
      rw [← b1]
      exact List.mem_map_of_mem Prod.snd h2'
    · injection he2 with a2 b2
      exfalso
      apply h.1
      show ve ∈ List.map Prod.snd t
      rw [← b2]
      exact List.mem_map_of_mem Prod.snd h1'
    · exact ih h.2 k₁ k₂ m h1' h2'

-- ## Claim theorems

/-- Claim C1: no partial publish. For every run of `DocGenerator.build` in
which an error propagates during extraction (`run_extraction`) or staging
(`write_docs` or the api-cache write) — in this model exactly the runs
whose result carries an error — the run aborts before the promotion loop,
the destination `output_dir` contents (files and directories, existence
included) are exactly as before the run, and every write performed up to
that point went only to the ephemeral temp workdir. The two disjointness
hypotheses say the fresh `mkdtemp` workdir and the destination do not
contain one another. -/
theorem c1_no_partial_publish (env : DocEnv) (cfg : DocGeneratorCfg)
    (workdir output_dir : FPath) (fs : FS)
    (hdisj₁ : workdir.underEq output_dir = false)
    (hdisj₂ : output_dir.underEq workdir = false)
    (herr : (build env cfg workdir output_dir fs).1.isSome = true) :
    (build env cfg workdir output_dir fs).2.restrictTo output_dir = fs.restrictTo output_dir
    ∧ ChangesWithin fs (build env cfg workdir output_dir fs).2 workdir := by
  rcases build_changes_or_ok env cfg workdir output_dir fs with hok | hcw
  · rw [hok] at herr
    cases herr
  · exact ⟨restrict_eq_of_changes hdisj₁ hdisj₂ hcw, hcw⟩

theorem c1_no_partial_publish_witness :
    ((FPath.mk true ["tmp"]).underEq (FPath.mk true ["out"]) = false)
    ∧ ((FPath.mk true ["out"]).underEq (FPath.mk true ["tmp"]) = false)
    ∧ ((build
        (DocEnv.mk (fun _ => none) (fun _ => false) (fun _ => 0)
          (fun _ _ => Except.error DocError.indexError) (fun _ => []))
        (DocGeneratorCfg.mk "T" [] "tf" 0 [] [] true "api_docs/python"
          false false false false)
        (FPath.mk true ["tmp"]) (FPath.mk true ["out"]) (FS.mk [] [])).1.isSome = true)
    ∧ ((build
        (DocEnv.mk (fun _ => none) (fun _ => false) (fun _ => 0)
          (fun _ _ => Except.error DocError.indexError) (fun _ => []))
        (DocGeneratorCfg.mk "T" [] "tf" 0 [] [] true "api_docs/python"
          false false false false)
        (FPath.mk true ["tmp"]) (FPath.mk true ["out"]) (FS.mk [] [])).2.restrictTo
          (FPath.mk true ["out"]) = (FS.mk [] []).restrictTo (FPath.mk true ["out"])
      ∧ ChangesWithin (FS.mk [] [])
          (build
            (DocEnv.mk (fun _ => none) (fun _ => false) (fun _ => 0)
              (fun _ _ => Except.error DocError.indexError) (fun _ => []))
            (DocGeneratorCfg.mk "T" [] "tf" 0 [] [] true "api_docs/python"
              false false false false)
            (FPath.mk true ["tmp"]) (FPath.mk true ["out"]) (FS.mk [] [])).2
          (FPath.mk true ["tmp"])) :=
  ⟨by decide, by decide, by decide,
    c1_no_partial_publish _ _ _ _ _ (by decide) (by decide) (by decide)⟩

/-- Claim C3 counterexample: a `DocGenerator.build` run whose configured
real destination is the relative path `out` raises nothing (the result
carries no error) and does write into the destination — the promotion
loop copies `out/tf.md` there. The claim "for every run whose configured
real destination path is relative, the pipeline raises a ConfigError and
writes nothing to the destination; in particular DocGenerator.build with
a relative output_dir fails this validation" is therefore false:
`build` never validates its own `output_dir`; the absoluteness check of
`write_docs` always receives the absolute temp workdir. -/
theorem c3_relative_destination_counterexample :
    ((FPath.mk false ["out"]).absolute = false)
    ∧ ((build
        (DocEnv.mk (fun _ => some (PageInfo.mk "t" 5)) (fun _ => false) (fun _ => 7)
          (fun _ _ => Except.ok (Accumulator.mk []
            [ApiNode.mk "tf" OutputType.PAGE, ApiNode.mk "tf.x" OutputType.PAGE]))
          (fun _ => []))
        (DocGeneratorCfg.mk "T" [("tf", 0)] "tf" 0 ["/src"] [some "u"] true
          "api_docs/python" false false false false)
        (FPath.mk true ["tmp"]) (FPath.mk false ["out"]) (FS.mk [] [])).1 = none)
    ∧ ((FPath.mk false ["out", "tf.md"], Content.page "t")
        ∈ (build
          (DocEnv.mk (fun _ => some (PageInfo.mk "t" 5)) (fun _ => false) (fun _ => 7)
            (fun _ _ => Except.ok (Accumulator.mk []
              [ApiNode.mk "tf" OutputType.PAGE, ApiNode.mk "tf.x" OutputType.PAGE]))
            (fun _ => []))
          (DocGeneratorCfg.mk "T" [("tf", 0)] "tf" 0 ["/src"] [some "u"] true
            "api_docs/python" false false false false)
          (FPath.mk true ["tmp"]) (FPath.mk false ["out"]) (FS.mk [] [])).2.files) :=
  ⟨by decide, by decide, by decide⟩

/-- Claim C3 (amended): the absoluteness validation belongs to
`write_docs`: called with a relative `output_dir` argument it raises the
ConfigError-class ValueError immediately and writes nothing — the
filesystem is returned unchanged. `DocGenerator.build`, however, always
hands `write_docs` the absolute temp workdir and performs no
absoluteness validation of its own `output_dir`, so a relative real
destination is not rejected (see the counterexample). -/
theorem c3_write_docs_relative_output (env : DocEnv) (od : FPath) (pc : ParserConfig)
    (yt : Bool) (rmn rt : String) (sh : Bool) (sp : String) (gr grp : Bool) (fs : FS)
    (hrel : od.absolute = false) :
    write_docs env od pc yt rmn rt sh sp gr grp fs
      = (some (DocError.configError msg_output_dir_abs), fs) := by
  simp only [write_docs, hrel, Bool.not_false, if_true]

theorem c3_write_docs_relative_output_witness :
    ((FPath.mk false ["docs"]).absolute = false)
    ∧ (write_docs
        (DocEnv.mk (fun _ => none) (fun _ => false) (fun _ => 0)
          (fun _ _ => Except.error DocError.indexError) (fun _ => []))
        (FPath.mk false ["docs"]) (ParserConfig.mk [] [] [] []) true "tf" "T" true
        "api_docs/python" true true (FS.mk [] [])
      = (some (DocError.configError msg_output_dir_abs), FS.mk [] [])) :=
  ⟨by decide, c3_write_docs_relative_output _ _ _ _ _ _ _ _ _ _ _ (by decide)⟩

/-- Claim C4: the empty-result guard. Under a healthy environment (no
write failures, every PAGE node renders) and an absolute `output_dir`,
`write_docs` fails with the empty-result error exactly when the number
of pages written — the number of PAGE nodes of the `api_tree` — does not
exceed 1, and succeeds exactly when 2 or more pages are written. -/
theorem c4_empty_result_guard (env : DocEnv) (od : FPath) (pc : ParserConfig)
    (yt : Bool) (rmn rt : String) (sh : Bool) (sp : String) (gr grp : Bool) (fs : FS)
    (habs : od.absolute = true)
    (hio : ∀ p, env.io_fail p = false)
    (hr : ∀ n ∈ pc.api_tree, n.output_type = OutputType.PAGE →
      (env.render n.full_name).isSome = true) :
    ((write_docs env od pc yt rmn rt sh sp gr grp fs).1 = some DocError.emptyResult
      ↔ countPages pc.api_tree ≤ 1)
    ∧ ((write_docs env od pc yt rmn rt sh sp gr grp fs).1 = none
      ↔ 2 ≤ countPages pc.api_tree) := by
  obtain ⟨st, hpair, h2, h3, h4, h5, heq⟩ :=
    write_docs_ok_eq env od pc yt rmn rt sh sp gr grp fs habs hio hr
  rw [heq, h2]
  by_cases hn : countPages pc.api_tree ≤ 1
  · rw [if_pos hn]
    constructor
    · exact ⟨fun _ => hn, fun _ => rfl⟩
    · constructor
      · intro hcontra
        cases hcontra
      · intro h2n
        omega
  · rw [if_neg hn]
    constructor
    · constructor
      · intro hcontra
        cases hcontra
      · intro hle
        exact absurd hle hn
    · exact ⟨fun _ => by omega, fun _ => rfl⟩

theorem c4_empty_result_guard_witness :
    ((FPath.mk true ["out"]).absolute = true)
    ∧ (((write_docs
        (DocEnv.mk (fun _ => some (PageInfo.mk "t" 5)) (fun _ => false) (fun _ => 7)
          (fun _ _ => Except.error DocError.indexError) (fun _ => []))
        (FPath.mk true ["out"])
        (ParserConfig.mk [] [ApiNode.mk "tf" OutputType.PAGE,
          ApiNode.mk "tf.x" OutputType.PAGE] [] [])
        true "tf" "T" true "api_docs/python" true true (FS.mk [] [])).1
          = some DocError.emptyResult
        ↔ countPages [ApiNode.mk "tf" OutputType.PAGE, ApiNode.mk "tf.x" OutputType.PAGE] ≤ 1)
      ∧ ((write_docs
        (DocEnv.mk (fun _ => some (PageInfo.mk "t" 5)) (fun _ => false) (fun _ => 7)
          (fun _ _ => Except.error DocError.indexError) (fun _ => []))
        (FPath.mk true ["out"])
        (ParserConfig.mk [] [ApiNode.mk "tf" OutputType.PAGE,
          ApiNode.mk "tf.x" OutputType.PAGE] [] [])
        true "tf" "T" true "api_docs/python" true true (FS.mk [] [])).1 = none
        ↔ 2 ≤ countPages [ApiNode.mk "tf" OutputType.PAGE, ApiNode.mk "tf.x" OutputType.PAGE])) :=
  ⟨by decide, c4_empty_result_guard _ _ _ _ _ _ _ _ _ _ _ (by decide) (fun p => rfl)
    (by decide)⟩

/-- Claim C7: fragment exclusion. The page-writing loop of `write_docs`
treats every FRAGMENT node as a no-op: running the loop over any
`api_tree` gives exactly the same outcome — the same files, the same
`num_docs_output`, the same redirect entries, the same report metrics and
the same error, starting from any state — as running it over the tree
with all FRAGMENT nodes removed. Only PAGE nodes produce output files. -/
theorem c7_fragment_exclusion (env : DocEnv) (od sp : FPath)
    (dups : List (String × List String)) (gr : Bool) (nodes : List ApiNode)
    (st : WDState) :
    write_docs_loop env od sp dups gr nodes st
      = write_docs_loop env od sp dups gr
          (nodes.filter (fun n => n.output_type == OutputType.PAGE)) st := by
  induction nodes generalizing st with
  | nil => rfl
  | cons n rest ih =>
    cases hty : n.output_type with
    | PAGE =>
      have hf : (n.output_type == OutputType.PAGE) = true := by
        rw [hty]
        rfl
      rw [List.filter_cons, if_pos hf]
      rcases hres : write_docs_node env od sp dups gr st n with ⟨e, st₂⟩
      cases e with
      | some err => simp only [write_docs_loop, hres]
      | none =>
        simp only [write_docs_loop, hres]
        exact ih st₂
    | FRAGMENT =>
      have hf : (n.output_type == OutputType.PAGE) = false := by
        rw [hty]
        rfl
      have hstep : write_docs_node env od sp dups gr st n = (none, st) := by
        simp [write_docs_node, hty]
      rw [List.filter_cons, if_neg (by simp [hf])]
      simp only [write_docs_loop, hstep]
      exact ih st

/-- Claim C5: configuration validation at `DocGenerator` construction.
For a non-empty `py_modules` (written `first :: rest` — an empty list
dies earlier on `py_modules[0]` with an IndexError), construction fails
with a ConfigError-class ValueError exactly when the resolved
base-directory list is empty, the resolved code-URL-prefix list is
empty, or the two lists have different lengths; it succeeds exactly when
all three checks pass. The last conjunct shows the checks run before any
traversal: the result does not depend on the `traverse` collaborator at
all. -/
theorem c5_init_validation (env : DocEnv) (rt : String) (first : String × Nat)
    (rest : List (String × Nat)) (bda : BaseDirArg) (cua : UrlArg)
    (sh : Bool) (sp : String) (ac yt grd grp : Bool) :
    ((∃ m, DocGenerator_init env rt (first :: rest) bda cua sh sp ac yt grd grp
        = Except.error (DocError.configError m))
      ↔ (resolve_base_dir env first.2 bda = [] ∨ resolve_code_urls cua = []
          ∨ (resolve_code_urls cua).length ≠ (resolve_base_dir env first.2 bda).length))
    ∧ ((∃ cfg, DocGenerator_init env rt (first :: rest) bda cua sh sp ac yt grd grp
        = Except.ok cfg)
      ↔ ¬(resolve_base_dir env first.2 bda = [] ∨ resolve_code_urls cua = []
          ∨ (resolve_code_urls cua).length ≠ (resolve_base_dir env first.2 bda).length))
    ∧ (∀ t₂, DocGenerator_init { env with traverse := t₂ } rt (first :: rest) bda cua
          sh sp ac yt grd grp
        = DocGenerator_init env rt (first :: rest) bda cua sh sp ac yt grd grp) := by
  obtain ⟨n₀, e₀⟩ := first
  have hind : ∀ t₂, DocGenerator_init { env with traverse := t₂ } rt ((n₀, e₀) :: rest)
      bda cua sh sp ac yt grd grp
      = DocGenerator_init env rt ((n₀, e₀) :: rest) bda cua sh sp ac yt grd grp := by
    intro t₂
    cases bda <;> rfl
  rcases hbd : resolve_base_dir env e₀ bda with _ | ⟨b, bs⟩
  · have hval : DocGenerator_init env rt ((n₀, e₀) :: rest) bda cua sh sp ac yt grd grp
        = Except.error (DocError.configError msg_base_dir_empty) := by
      simp [DocGenerator_init, hbd]
    refine ⟨⟨fun _ => Or.inl rfl, fun _ => ⟨msg_base_dir_empty, hval⟩⟩, ⟨?_, ?_⟩, hind⟩
    · rintro ⟨cfg, hcfg⟩
      rw [hval] at hcfg
      cases hcfg
    · intro hn
      exact absurd (Or.inl rfl) hn
  · rcases hcu : resolve_code_urls cua with _ | ⟨u, us⟩
    · have hval : DocGenerator_init env rt ((n₀, e₀) :: rest) bda cua sh sp ac yt grd grp
          = Except.error (DocError.configError msg_cup_empty) := by
        simp [DocGenerator_init, hbd, hcu]
      refine ⟨⟨fun _ => Or.inr (Or.inl rfl), fun _ => ⟨msg_cup_empty, hval⟩⟩, ⟨?_, ?_⟩, hind⟩
      · rintro ⟨cfg, hcfg⟩
        rw [hval] at hcfg
        cases hcfg
      · intro hn
        exact absurd (Or.inr (Or.inl rfl)) hn
    · by_cases hlen : (u :: us).length = (b :: bs).length
      · have hval : DocGenerator_init env rt ((n₀, e₀) :: rest) bda cua sh sp ac yt grd grp
            = Except.ok (DocGeneratorCfg.mk rt ((n₀, e₀) :: rest) n₀ e₀ (b :: bs) (u :: us)
                sh sp ac yt grd grp) := by
          simp [DocGenerator_init, hbd, hcu, hlen]
        have hforbid : ¬((b :: bs : List String) = []
            ∨ (u :: us : List (Option String)) = []
            ∨ (u :: us).length ≠ (b :: bs).length) := by
          rintro (h | h | h)
          · cases h
          · cases h
          · exact h hlen
        refine ⟨⟨?_, fun h => absurd h hforbid⟩, ⟨fun _ => hforbid, fun _ => ⟨_, hval⟩⟩, hind⟩
        rintro ⟨m, hm⟩
        rw [hval] at hm
        cases hm
      · have hval : DocGenerator_init env rt ((n₀, e₀) :: rest) bda cua sh sp ac yt grd grp
            = Except.error (DocError.configError msg_pairing) := by
          simp only [DocGenerator_init, hbd, hcu, List.isEmpty_cons,
            Bool.false_eq_true, if_false]
          rw [if_pos hlen]
        refine ⟨⟨fun _ => Or.inr (Or.inr hlen), fun _ => ⟨msg_pairing, hval⟩⟩,
          ⟨?_, ?_⟩, hind⟩
        · rintro ⟨cfg, hcfg⟩
          rw [hval] at hcfg
          cases hcfg
        · intro hn
          exact absurd (Or.inr (Or.inr hlen)) hn

/-- Claim C6: the single-root requirement. `extract` equals the traversal
of the single `(name, entity)` pair when `py_modules` has exactly one
element, and the ConfigError-class ValueError otherwise — the right hand
side of the non-singleton branch is a constant, so no traversal of the
entity graph is ever invoked for a multi-root (or empty) input. -/
theorem c6_single_root (env : DocEnv) (pm : List (String × Nat)) :
    extract env pm
      = (if pm.length = 1
         then env.traverse ((pm.getD 0 ("", 0)).1) ((pm.getD 0 ("", 0)).2)
         else Except.error (DocError.configError msg_only_one)) := by
  rcases pm with _ | ⟨⟨n, e⟩, _ | ⟨b, t⟩⟩
  · rfl
  · rfl
  · have hne : ((n, e) :: b :: t).length ≠ 1 := by
      simp [List.length]
    rw [if_neg hne]
    rfl

/-- Claim C10: the `code_url_prefix` normalization edge case. A single
string or `None` is wrapped into a one-element tuple before the
non-emptiness check, so such an argument can never trigger the
"`code_url_prefix` cannot be empty" error; with a sequence argument that
error is raised exactly for the explicitly empty sequence (the default
`()`), once the base-directory check has passed. -/
theorem c10_code_url_wrap (env : DocEnv) (rt : String) (first : String × Nat)
    (rest : List (String × Nat)) (bda : BaseDirArg) (sh : Bool) (sp : String)
    (ac yt grd grp : Bool) (s : Option String) (l : List (Option String)) :
    (DocGenerator_init env rt (first :: rest) bda (UrlArg.strOrNone s) sh sp ac yt grd grp
      ≠ Except.error (DocError.configError msg_cup_empty))
    ∧ (DocGenerator_init env rt (first :: rest) bda (UrlArg.seqArg l) sh sp ac yt grd grp
        = Except.error (DocError.configError msg_cup_empty)
      ↔ (l = [] ∧ resolve_base_dir env first.2 bda ≠ [])) := by
  obtain ⟨n₀, e₀⟩ := first
  rcases hbd : resolve_base_dir env e₀ bda with _ | ⟨b, bs⟩
  · have hval₁ : DocGenerator_init env rt ((n₀, e₀) :: rest) bda (UrlArg.strOrNone s)
        sh sp ac yt grd grp = Except.error (DocError.configError msg_base_dir_empty) := by
      simp [DocGenerator_init, hbd]
    have hval₂ : DocGenerator_init env rt ((n₀, e₀) :: rest) bda (UrlArg.seqArg l)
        sh sp ac yt grd grp = Except.error (DocError.configError msg_base_dir_empty) := by
      simp [DocGenerator_init, hbd]
    refine ⟨?_, ⟨?_, ?_⟩⟩
    · intro h
      rw [hval₁] at h
      injection h with h₁
      injection h₁ with h₂
      exact absurd h₂ (by decide)
    · intro h
      rw [hval₂] at h
      injection h with h₁
      injection h₁ with h₂
      exact absurd h₂ (by decide)
    · rintro ⟨-, hne⟩
      exact absurd rfl hne
  · refine ⟨?_, ?_⟩
    · by_cases hlen : ([s] : List (Option String)).length = (b :: bs).length
      · have hval : DocGenerator_init env rt ((n₀, e₀) :: rest) bda (UrlArg.strOrNone s)
            sh sp ac yt grd grp
            = Except.ok (DocGeneratorCfg.mk rt ((n₀, e₀) :: rest) n₀ e₀ (b :: bs) [s]
                sh sp ac yt grd grp) := by
          simp only [DocGenerator_init, hbd, resolve_code_urls, List.isEmpty_cons,
            Bool.false_eq_true, if_false]
          rw [if_neg (not_not_intro hlen)]
        intro h
        rw [hval] at h
        cases h
      · have hval : DocGenerator_init env rt ((n₀, e₀) :: rest) bda (UrlArg.strOrNone s)
            sh sp ac yt grd grp = Except.error (DocError.configError msg_pairing) := by
          simp only [DocGenerator_init, hbd, resolve_code_urls, List.isEmpty_cons,
            Bool.false_eq_true, if_false]
          rw [if_pos hlen]
        intro h
        rw [hval] at h
        injection h with h₁
        injection h₁ with h₂
        exact absurd h₂ (by decide)
    · rcases l with _ | ⟨u, us⟩
      · have hval : DocGenerator_init env rt ((n₀, e₀) :: rest) bda (UrlArg.seqArg [])
            sh sp ac yt grd grp = Except.error (DocError.configError msg_cup_empty) := by
          simp [DocGenerator_init, hbd, resolve_code_urls]
        constructor
        · intro _
          refine ⟨rfl, ?_⟩
          simp
        · intro _
          exact hval
      · by_cases hlen : (u :: us).length = (b :: bs).length
        · have hval : DocGenerator_init env rt ((n₀, e₀) :: rest) bda
              (UrlArg.seqArg (u :: us)) sh sp ac yt grd grp
              = Except.ok (DocGeneratorCfg.mk rt ((n₀, e₀) :: rest) n₀ e₀ (b :: bs)
                  (u :: us) sh sp ac yt grd grp) := by
            simp only [DocGenerator_init, hbd, resolve_code_urls, List.isEmpty_cons,
              Bool.false_eq_true, if_false]
            rw [if_neg (not_not_intro hlen)]
          constructor
          · intro h
            rw [hval] at h
            cases h
          · rintro ⟨hl, -⟩
            cases hl
        · have hval : DocGenerator_init env rt ((n₀, e₀) :: rest) bda
              (UrlArg.seqArg (u :: us)) sh sp ac yt grd grp
              = Except.error (DocError.configError msg_pairing) := by
            simp only [DocGenerator_init, hbd, resolve_code_urls, List.isEmpty_cons,
              Bool.false_eq_true, if_false]
            rw [if_pos hlen]
          constructor
          · intro h
            rw [hval] at h
            injection h with h₁
            injection h₁ with h₂
            exact absurd h₂ (by decide)
          · rintro ⟨hl, -⟩
            cases hl

/-- Claim C2: alias completeness and redirect ordering. Under a healthy
environment, an absolute `output_dir` and at least two pages (so the
run succeeds), with redirect generation enabled `write_docs` succeeds
and writes the `_redirects.yaml` manifest holding exactly the sorted
list of all collected entries; for a canonical name `c` written by
exactly one PAGE node and an alias `d ≠ c` listed exactly once in
`duplicates[c]`, exactly one entry `mkRedirect site_path d c` (from:
site_path/d-with-dots-replaced, to: site_path/c-with-dots-replaced)
occurs in that list; the manifest list is sorted ascending by the
`from` field; and with redirect generation disabled no redirects
manifest is written at all (given the initial filesystem holds none).
The `hinj` hypothesis rules out distinct dotted names colliding after
the dot-to-slash replacement. -/
theorem c2_redirects (env : DocEnv) (od : FPath) (pc : ParserConfig)
    (yt : Bool) (rmn rt : String) (sh : Bool) (sp : String) (grp : Bool) (fs : FS)
    (c d : String)
    (habs : od.absolute = true)
    (hio : ∀ p, env.io_fail p = false)
    (hr : ∀ n ∈ pc.api_tree, n.output_type = OutputType.PAGE →
      (env.render n.full_name).isSome = true)
    (hn : 2 ≤ countPages pc.api_tree)
    (hc : (pagesNamed pc.api_tree c).length = 1)
    (hd : (dupsOf pc.duplicates c).count d = 1)
    (hinj : ∀ n ∈ pc.api_tree, n.output_type = OutputType.PAGE →
      ∀ d₂ ∈ dupsOf pc.duplicates n.full_name,
      mkRedirect (sitePathOf sp) d₂ n.full_name = mkRedirect (sitePathOf sp) d c →
      (n.full_name = c ∧ d₂ = d))
    (hclean : ∀ p entries, (p, Content.redirectsYaml entries) ∉ fs.files) :
    ((write_docs env od pc yt rmn rt sh sp true grp fs).1 = none)
    ∧ ((redirectsPath od rmn,
        Content.redirectsYaml (sortRed (allEntries (sitePathOf sp) pc.duplicates pc.api_tree)))
        ∈ (write_docs env od pc yt rmn rt sh sp true grp fs).2.files)
    ∧ ((sortRed (allEntries (sitePathOf sp) pc.duplicates pc.api_tree)).count
        (mkRedirect (sitePathOf sp) d c) = 1)
    ∧ (sortedAdjB (sortRed (allEntries (sitePathOf sp) pc.duplicates pc.api_tree)) = true)
    ∧ (∀ p entries, (p, Content.redirectsYaml entries)
        ∉ (write_docs env od pc yt rmn rt sh sp false grp fs).2.files) := by
  obtain ⟨st, hpair, h2, h3, h4, h5, heq⟩ :=
    write_docs_ok_eq env od pc yt rmn rt sh sp true grp fs habs hio hr
  have hgt : ¬ st.num_docs_output ≤ 1 := by
    rw [h2]
    omega
  rw [if_neg hgt] at heq
  have hred : st.redirects = allEntries (sitePathOf sp) pc.duplicates pc.api_tree := h3
  have hcount : (allEntries (sitePathOf sp) pc.duplicates pc.api_tree).count
      (mkRedirect (sitePathOf sp) d c) = 1 := by
    rw [count_allEntries_mul (sitePathOf sp) pc.duplicates c d pc.api_tree hinj, hc, hd]
  have hne : st.redirects ≠ [] := by
    rw [hred]
    intro h0
    rw [h0, List.count_nil] at hcount
    exact absurd hcount (by decide)
  refine ⟨?_, ?_, ?_, sortedAdjB_sortRed _, ?_⟩
  · rw [heq]
  · rw [heq, ← hred]
    exact manifest_mem_final env od rmn rt sh yt pc.api_tree st hne
  · rw [count_sortRed]
    exact hcount
  · intro p entries hmem
    obtain ⟨st₂, hpair₂, h2₂, h3₂, h4₂, h5₂, heq₂⟩ :=
      write_docs_ok_eq env od pc yt rmn rt sh sp false grp fs habs hio hr
    have hgt₂ : ¬ st₂.num_docs_output ≤ 1 := by
      rw [h2₂]
      omega
    rw [if_neg hgt₂] at heq₂
    rw [heq₂] at hmem
    dsimp only at hmem
    rw [wdFinalFS] at hmem
    rcases mem_writeFile_inv hmem with hmem | ⟨-, hcc⟩
    · have hwdred : wdRedFS od rmn false st₂.redirects
          (wdTocFS env od rmn yt pc.api_tree (wdReportFS od rmn st₂))
          = wdTocFS env od rmn yt pc.api_tree (wdReportFS od rmn st₂) := by
        rw [wdRedFS]
        simp
      rw [hwdred] at hmem
      rcases mem_wdTocFS_inv hmem with hmem | ⟨-, d₂, hcc⟩
      · rcases mem_wdReportFS_inv hmem with hmem | ⟨-, ms, hcc⟩
        · rcases h5₂ p _ hmem with hmem | ⟨t, hcc⟩
          · exact hclean p entries hmem
          · cases hcc
        · cases hcc
      · cases hcc
    · cases hcc

theorem c2_redirects_witness :
    (2 ≤ countPages [ApiNode.mk "tf" OutputType.PAGE, ApiNode.mk "tf.x" OutputType.PAGE])
    ∧ (((write_docs
        (DocEnv.mk (fun _ => some (PageInfo.mk "t" 5)) (fun _ => false) (fun _ => 7)
          (fun _ _ => Except.error DocError.indexError) (fun _ => []))
        (FPath.mk true ["out"])
        (ParserConfig.mk [("tf.x", ["tf.x", "tf.y"])]
          [ApiNode.mk "tf" OutputType.PAGE, ApiNode.mk "tf.x" OutputType.PAGE] [] [])
        true "tf" "T" true "api_docs/python" true false (FS.mk [] [])).1 = none)
      ∧ ((redirectsPath (FPath.mk true ["out"]) "tf",
          Content.redirectsYaml (sortRed (allEntries (sitePathOf "api_docs/python")
            [("tf.x", ["tf.x", "tf.y"])]
            [ApiNode.mk "tf" OutputType.PAGE, ApiNode.mk "tf.x" OutputType.PAGE])))
          ∈ (write_docs
            (DocEnv.mk (fun _ => some (PageInfo.mk "t" 5)) (fun _ => false) (fun _ => 7)
              (fun _ _ => Except.error DocError.indexError) (fun _ => []))
            (FPath.mk true ["out"])
            (ParserConfig.mk [("tf.x", ["tf.x", "tf.y"])]
              [ApiNode.mk "tf" OutputType.PAGE, ApiNode.mk "tf.x" OutputType.PAGE] [] [])
            true "tf" "T" true "api_docs/python" true false (FS.mk [] [])).2.files)
      ∧ ((sortRed (allEntries (sitePathOf "api_docs/python")
          [("tf.x", ["tf.x", "tf.y"])]
          [ApiNode.mk "tf" OutputType.PAGE, ApiNode.mk "tf.x" OutputType.PAGE])).count
          (mkRedirect (sitePathOf "api_docs/python") "tf.y" "tf.x") = 1)
      ∧ (sortedAdjB (sortRed (allEntries (sitePathOf "api_docs/python")
          [("tf.x", ["tf.x", "tf.y"])]
          [ApiNode.mk "tf" OutputType.PAGE, ApiNode.mk "tf.x" OutputType.PAGE])) = true)
      ∧ (∀ p entries, (p, Content.redirectsYaml entries)
          ∉ (write_docs
            (DocEnv.mk (fun _ => some (PageInfo.mk "t" 5)) (fun _ => false) (fun _ => 7)
              (fun _ _ => Except.error DocError.indexError) (fun _ => []))
            (FPath.mk true ["out"])
            (ParserConfig.mk [("tf.x", ["tf.x", "tf.y"])]
              [ApiNode.mk "tf" OutputType.PAGE, ApiNode.mk "tf.x" OutputType.PAGE] [] [])
            true "tf" "T" true "api_docs/python" false false (FS.mk [] [])).2.files)) :=
  ⟨by decide, c2_redirects _ _ _ _ _ _ _ _ _ _ "tf.x" "tf.y" (by decide) (fun p => rfl)
    (by decide) (by decide) (by decide) (by decide) (by decide)
    (fun p entries hm => List.not_mem_nil _ hm)⟩

/-- Claim C8: usage-report collection. Under a healthy environment and
an absolute `output_dir`, with report generation enabled `write_docs`
serializes the collector to the fixed path
`output_dir/{root_module_name}/api_report.pb`, and its content is
exactly `pageMetrics`: the metric of every successfully rendered PAGE
node, in loop order, with the nodes whose full name starts with one of
the excluded namespace prefixes (`tf.compat.v`, `tf.keras.backend`,
`tf.numpy`, `tf.experimental.numpy`) skipped — this is the fold
performed by `reportFold` inside the loop. The report is written even
on the empty-result error path, since the serialization precedes that
check. With report generation disabled, no collector exists and no
report file is ever written (given the initial filesystem holds none). -/
theorem c8_usage_report (env : DocEnv) (od : FPath) (pc : ParserConfig)
    (yt : Bool) (rmn rt : String) (sh : Bool) (sp : String) (gr : Bool) (fs : FS)
    (habs : od.absolute = true)
    (hio : ∀ p, env.io_fail p = false)
    (hr : ∀ n ∈ pc.api_tree, n.output_type = OutputType.PAGE →
      (env.render n.full_name).isSome = true)
    (hclean : ∀ p ms, (p, Content.apiReport ms) ∉ fs.files) :
    ((reportPath od rmn, Content.apiReport (pageMetrics env pc.api_tree))
      ∈ (write_docs env od pc yt rmn rt sh sp gr true fs).2.files)
    ∧ (∀ p ms, (p, Content.apiReport ms)
        ∉ (write_docs env od pc yt rmn rt sh sp gr false fs).2.files) := by
  constructor
  · obtain ⟨st, hpair, h2, h3, h4, h5, heq⟩ :=
      write_docs_ok_eq env od pc yt rmn rt sh sp gr true fs habs hio hr
    have h4₂ : st.api_report = some (pageMetrics env pc.api_tree) := h4
    rw [heq]
    by_cases hnn : st.num_docs_output ≤ 1
    · rw [if_pos hnn]
      dsimp only
      rw [wdReportFS, h4₂]
      exact mem_writeFile_self _ _ _
    · rw [if_neg hnn]
      exact report_mem_final env od rmn rt sh yt gr pc.api_tree st _ h4₂
  · intro p ms hmem
    obtain ⟨st, hpair, h2, h3, h4, h5, heq⟩ :=
      write_docs_ok_eq env od pc yt rmn rt sh sp gr false fs habs hio hr
    have h4₂ : st.api_report = none := h4
    have hrepfs : wdReportFS od rmn st = st.fs := by
      rw [wdReportFS, h4₂]
    rw [heq] at hmem
    by_cases hnn : st.num_docs_output ≤ 1
    · rw [if_pos hnn] at hmem
      dsimp only at hmem
      rw [hrepfs] at hmem
      rcases h5 p _ hmem with hmem | ⟨t, hcc⟩
      · exact hclean p ms hmem
      · cases hcc
    · rw [if_neg hnn] at hmem
      dsimp only at hmem
      rw [wdFinalFS] at hmem
      rcases mem_writeFile_inv hmem with hmem | ⟨-, hcc⟩
      · rcases mem_wdRedFS_inv hmem with hmem | ⟨-, entries, hcc⟩
        · rcases mem_wdTocFS_inv hmem with hmem | ⟨-, d₂, hcc⟩
          · rw [hrepfs] at hmem
            rcases h5 p _ hmem with hmem | ⟨t, hcc⟩
            · exact hclean p ms hmem
            · cases hcc
          · cases hcc
        · cases hcc
      · cases hcc

theorem c8_usage_report_witness :
    ((FPath.mk true ["out"]).absolute = true)
    ∧ (((reportPath (FPath.mk true ["out"]) "tf",
        Content.apiReport (pageMetrics
          (DocEnv.mk (fun _ => some (PageInfo.mk "t" 5)) (fun _ => false) (fun _ => 7)
            (fun _ _ => Except.error DocError.indexError) (fun _ => []))
          [ApiNode.mk "tf" OutputType.PAGE, ApiNode.mk "tf.compat.v1" OutputType.PAGE]))
        ∈ (write_docs
          (DocEnv.mk (fun _ => some (PageInfo.mk "t" 5)) (fun _ => false) (fun _ => 7)
            (fun _ _ => Except.error DocError.indexError) (fun _ => []))
          (FPath.mk true ["out"])
          (ParserConfig.mk []
            [ApiNode.mk "tf" OutputType.PAGE, ApiNode.mk "tf.compat.v1" OutputType.PAGE] [] [])
          true "tf" "T" true "api_docs/python" false true (FS.mk [] [])).2.files)
      ∧ (∀ p ms, (p, Content.apiReport ms)
          ∉ (write_docs
            (DocEnv.mk (fun _ => some (PageInfo.mk "t" 5)) (fun _ => false) (fun _ => 7)
              (fun _ _ => Except.error DocError.indexError) (fun _ => []))
            (FPath.mk true ["out"])
            (ParserConfig.mk []
              [ApiNode.mk "tf" OutputType.PAGE, ApiNode.mk "tf.compat.v1" OutputType.PAGE] [] [])
            true "tf" "T" true "api_docs/python" false false (FS.mk [] [])).2.files)) :=
  ⟨by decide, c8_usage_report _ _ _ _ _ _ _ _ _ _ (by decide) (fun p => rfl) (by decide)
    (fun p ms hm => List.not_mem_nil _ hm)⟩

/-- Claim C9 counterexample: Python list aliasing breaks the claimed
per-key postcondition. Here `add_from = {'a': ref 0, 'b': ref 0}` binds
both keys to the same list object (reference 0, holding `[1]`) and
`add_to = {'a': ref 0}`. After `add_dict_to_dict`, key `b` (absent from
`add_to`) is bound to reference 0 as the claim's aliasing clause says —
but the list stored there is `[1, 1]` (mutated by the extend performed
for key `a`), not the claimed `[] ++ [1] = [1]`: the first clause of
the claim is false without an assumption that the involved list objects
are distinct. -/
theorem c9_aliasing_counterexample :
    ((add_dict_to_dict (PyDict.mk [("a", 0), ("b", 0)]) (PyDict.mk [("a", 0)])
        (fun r => if r = 0 then [1] else [])).1.lookup "b" = some 0)
    ∧ ((add_dict_to_dict (PyDict.mk [("a", 0), ("b", 0)]) (PyDict.mk [("a", 0)])
        (fun r => if r = 0 then [1] else [])).2 0 = [1, 1])
    ∧ ¬([1, 1] = ([] : List Nat) ++ [1]) :=
  ⟨by decide, by decide, by decide⟩

/-- Claim C9 (amended): `add_dict_to_dict(add_from, add_to)` satisfies
the claimed contract once the list objects involved are pairwise
distinct: assuming the keys of `add_from` are distinct (Python dict
keys always are), the references stored in `add_to` are pairwise
distinct, and no reference of `add_from` coincides with a reference of
`add_to`, then (1) a key absent from `add_from` keeps its `add_to`
binding; (2) a list object not extended by the loop is unchanged on the
heap; and (3) for every key `k` of `add_from`: if `k` was in `add_to`
its bound object now holds the old `add_to[k]` followed by the elements
of `add_from[k]` in order, and if it was absent, `add_to[k]` is now the
very object `add_from[k]` (the same reference — aliased, not copied),
its contents unchanged. Without the distinctness hypotheses the first
part of the claim is false (see the counterexample). -/
theorem c9_add_dict_to_dict (add_from add_to : PyDict) (h : PyHeap)
    (hkf : (add_from.entries.map Prod.fst).Nodup)
    (hvt : (add_to.entries.map Prod.snd).Nodup)
    (hdisj : ∀ k r, (k, r) ∈ add_from.entries →
      ∀ k₂ m, add_to.lookup k₂ = some m → r ≠ m) :
    (∀ k, k ∉ add_from.entries.map Prod.fst →
      (add_dict_to_dict add_from add_to h).1.lookup k = add_to.lookup k)
    ∧ (∀ m, (∀ k₂ r₂, (k₂, r₂) ∈ add_from.entries → add_to.lookup k₂ ≠ some m) →
      (add_dict_to_dict add_from add_to h).2 m = h m)
    ∧ (∀ k r, (k, r) ∈ add_from.entries →
        (match add_to.lookup k with
         | some m => (add_dict_to_dict add_from add_to h).1.lookup k = some m
             ∧ (add_dict_to_dict add_from add_to h).2 m = h m ++ h r
         | none => (add_dict_to_dict add_from add_to h).1.lookup k = some r
             ∧ (add_dict_to_dict add_from add_to h).2 r = h r)) := by
  have hspec := add_go_spec add_from.entries add_to h hkf
    (fun k₁ r₁ k₂ r₂ m₁ m₂ hm₁ hm₂ hl₁ hl₂ hm =>
      key_eq_of_snd_nodup add_to.entries hvt k₁ k₂ m₁
        (alookup_mem k₁ m₁ add_to.entries hl₁)
        (by rw [hm]; exact alookup_mem k₂ m₂ add_to.entries hl₂))
    (fun k₁ r₁ k₂ r₂ m hm₁ hm₂ hl₂ => hdisj k₁ r₁ hm₁ k₂ m hl₂)
  exact hspec

theorem c9_add_dict_to_dict_witness :
    ((add_dict_to_dict (PyDict.mk [("a", 1)]) (PyDict.mk [("b", 2)])
        (fun r => [r])).1.lookup "a" = some 1)
    ∧ ((add_dict_to_dict (PyDict.mk [("a", 1)]) (PyDict.mk [("b", 2)])
        (fun r => [r])).2 1 = [1])
    ∧ ((add_dict_to_dict (PyDict.mk [("a", 1)]) (PyDict.mk [("b", 2)])
        (fun r => [r])).1.lookup "b" = some 2) := by
  have hdisj : ∀ k r, (k, r) ∈ (PyDict.mk [("a", 1)]).entries →
      ∀ k₂ m, (PyDict.mk [("b", 2)]).lookup k₂ = some m → r ≠ m := by
    intro k r hm k₂ m hl
    rw [List.mem_singleton] at hm
    injection hm with h₁ h₂
    subst h₂
    simp only [PyDict.lookup, alookup] at hl
    by_cases hk : k₂ = "b"
    · rw [if_pos hk] at hl
      injection hl with h₃
      subst h₃
      decide
    · rw [if_neg hk] at hl
      cases hl
  have hspec := c9_add_dict_to_dict (PyDict.mk [("a", 1)]) (PyDict.mk [("b", 2)])
    (fun r => [r]) (by decide) (by decide) hdisj
  have h3 := hspec.2.2 "a" 1 (by decide)
  exact ⟨h3.1, h3.2, hspec.1 "b" (by decide)⟩
